import Mathlib

/-!
Shallow embedding of the RAG academic-advising repository, with theorems
checking the natural-language specification against the code.

Each section embeds one component of the source tree:
* `Backoff`   — `get_with_backoff` (scripts/scrape_curricula/scrape.py and
                Code/src/utils/ratings.py), as a pure function over a
                response sequence.
* `VStore`    — id assignment and state of `ChromaVectorStore.add_documents`
                and `FAISSVectorStore.add_documents` (src/rag/vector_store.py).
* `Retriever` — `RAGRetriever.retrieve` and the in-effect (second)
                `ProfessorRatingsRetriever.get_professors_for_course`
                (src/rag/retriever.py), over the FAISS-backed store model.
* `DocProc`   — `DocumentProcessor.chunk_text` and `_extract_course_codes`
                (src/rag/document_processor.py).
* `Culpa`     — `process_culpa_ratings` (scripts/process_culpa_data.py).
* `Ratings`   — `string_similarity`, `name_matches`, `get_professor_ids`
                (Code/src/utils/ratings.py), with `difflib.SequenceMatcher`
                ratio embedded for short junk-free strings.
* `Api`       — `parse_planning_response` (src/api/app.py) with the pydantic
                `Course`/`Semester` models (src/api/models.py) and a JSON
                reader embedding `json.loads` on the fragment grammar the
                claims exercise.

Machine floats in the source (delays, ratings, distances) are modelled as
rationals; the values the claims exercise are exactly representable in
binary floating point, so the arithmetic agrees.
-/

namespace Backoff

/-- One HTTP response as seen by `get_with_backoff`: a status code and an
optional `Retry-After` header (already converted to a number of seconds). -/
structure HttpResponse where
  status : Nat
  retryAfter : Option ℚ
deriving DecidableEq, Repr

/-- Outcome of `get_with_backoff`: the 2xx/3xx response returned, an
HTTP error raised immediately by `raise_for_status`, or the rate-limit
error raised after exhausting the retries. -/
inductive FetchResult where
  | success (r : HttpResponse)
  | httpError (status : Nat)
  | rateLimited
deriving DecidableEq, Repr

/-- `requests.Response.raise_for_status` raises exactly for 4xx/5xx codes. -/
def raiseForStatusFails (status : Nat) : Bool :=
  400 ≤ status && status < 600

/-- The retry loop of `get_with_backoff`, embedded as a pure function.
`resps n` is the response the server gives to the `n`-th request (the
network boundary).  Returns the outcome, the list of sleep durations
performed (in order), and the number of requests made. -/
def getWithBackoffAux (resps : Nat → HttpResponse) :
    Nat → Nat → ℚ → List ℚ → FetchResult × List ℚ × Nat
  | attempt, 0, _, sleeps => (.rateLimited, sleeps, attempt)
  | attempt, fuel + 1, delay, sleeps =>
    let r := resps attempt
    if r.status ≠ 429 then
      if raiseForStatusFails r.status then (.httpError r.status, sleeps, attempt + 1)
      else (.success r, sleeps, attempt + 1)
    else
      let delay' := match r.retryAfter with
        | some ra => ra
        | none => delay
      getWithBackoffAux resps (attempt + 1) fuel (delay' * 2) (sleeps ++ [delay'])

/-- `get_with_backoff(url, retries=10, base_delay=0.5)`: try up to `retries`
requests; a non-429 response returns (or raises via `raise_for_status`)
immediately; a 429 reads `Retry-After` if present (else keeps the current
delay), sleeps that delay, doubles it, and retries; exhausting the
attempts raises a rate-limit error. -/
def get_with_backoff (resps : Nat → HttpResponse) (retries : Nat := 10)
    (base_delay : ℚ := 1/2) : FetchResult × List ℚ × Nat :=
  getWithBackoffAux resps 0 retries base_delay []

/-- Server behaviour: five 429 responses without `Retry-After`, then a 200. -/
def fiveThrottlesThen200 : Nat → HttpResponse :=
  fun n => if n < 5 then ⟨429, none⟩ else ⟨200, none⟩

/-- Server behaviour: every request is throttled, never a `Retry-After`. -/
def alwaysThrottled : Nat → HttpResponse :=
  fun _ => ⟨429, none⟩

end Backoff

/-- C5: five 429s then a 200 yields the 200 response with sleeps exactly
0.5, 1, 2, 4, 8 seconds in order; ten straight 429s raise the rate-limit
error after exactly ten requests; and any non-429 error status (4xx/5xx)
raises immediately after a single request with no sleeps. -/
theorem backoff_sequence_ok :
    Backoff.get_with_backoff Backoff.fiveThrottlesThen200 =
      (.success ⟨200, none⟩, [1/2, 1, 2, 4, 8], 6) ∧
    Backoff.get_with_backoff Backoff.alwaysThrottled =
      (.rateLimited, [1/2, 1, 2, 4, 8, 16, 32, 64, 128, 256], 10) ∧
    ∀ s : Nat, Backoff.raiseForStatusFails s = true → s ≠ 429 →
      Backoff.get_with_backoff (fun _ => ⟨s, none⟩) = (.httpError s, [], 1) := by
  refine ⟨?_, ?_, ?_⟩
  · norm_num [Backoff.get_with_backoff, Backoff.getWithBackoffAux,
      Backoff.fiveThrottlesThen200, Backoff.raiseForStatusFails]
  · norm_num [Backoff.get_with_backoff, Backoff.getWithBackoffAux,
      Backoff.alwaysThrottled]
  · intro s hs hne
    simp [Backoff.get_with_backoff, Backoff.getWithBackoffAux, hne, hs]

/-- Witness for `backoff_sequence_ok`: the universally quantified third
conjunct applied at the concrete status 500. -/
theorem backoff_sequence_ok_witness :
    Backoff.get_with_backoff (fun _ => ⟨500, none⟩) = (.httpError 500, [], 1) :=
  backoff_sequence_ok.2.2 500 (by decide) (by decide)

namespace VStore

/-- Little-endian decimal digits of `n` (fuel-driven; `fuel = n + 1` always
suffices since the argument strictly shrinks under division by ten). -/
def decimalDigitsAux : Nat → Nat → List Nat
  | 0, _ => []
  | fuel + 1, n => if n < 10 then [n] else n % 10 :: decimalDigitsAux fuel (n / 10)

/-- Little-endian decimal digits of `n`; `decimalDigits 0 = [0]`. -/
def decimalDigits (n : Nat) : List Nat :=
  decimalDigitsAux (n + 1) n

/-- Value of a little-endian digit list (used only to prove injectivity of
the decimal rendering). -/
def valLE : List Nat → Nat
  | [] => 0
  | d :: ds => d + 10 * valLE ds

theorem valLE_decimalDigitsAux :
    ∀ (fuel n : Nat), n ≤ fuel → valLE (decimalDigitsAux (fuel + 1) n) = n := by
  intro fuel
  induction fuel using Nat.strong_induction_on with
  | _ fuel ih =>
    intro n hn
    by_cases h10 : n < 10
    · simp [decimalDigitsAux, h10, valLE]
    · have hpos : 0 < n := by omega
      have hdiv : n / 10 < n := Nat.div_lt_self hpos (by omega)
      obtain ⟨fuel', rfl⟩ : ∃ f, fuel = f + 1 := ⟨fuel - 1, by omega⟩
      rw [decimalDigitsAux, if_neg h10]
      have := ih fuel' (by omega) (n / 10) (by omega)
      simp only [valLE, this]
      omega

theorem valLE_decimalDigits (n : Nat) : valLE (decimalDigits n) = n :=
  valLE_decimalDigitsAux n n (le_refl n)

theorem decimalDigits_injective : Function.Injective decimalDigits := by
  intro a b h
  have := valLE_decimalDigits a
  rw [h, valLE_decimalDigits] at this
  omega

theorem decimalDigitsAux_lt_ten :
    ∀ (fuel n d : Nat), d ∈ decimalDigitsAux fuel n → d < 10 := by
  intro fuel
  induction fuel with
  | zero => intro n d h; simp [decimalDigitsAux] at h
  | succ fuel ih =>
    intro n d h
    by_cases h10 : n < 10
    · simp [decimalDigitsAux, h10] at h; omega
    · rw [decimalDigitsAux, if_neg h10] at h
      rcases List.mem_cons.mp h with h | h
      · subst h; exact Nat.mod_lt _ (by omega)
      · exact ih _ _ h

/-- The ASCII digit character for `d` (`'0'` … `'9'` when `d < 10`). -/
def digitChar48 (d : Nat) : Char := Char.ofNat (48 + d)

theorem digitChar48_inj {d₁ d₂ : Nat} (h₁ : d₁ < 10) (h₂ : d₂ < 10)
    (h : digitChar48 d₁ = digitChar48 d₂) : d₁ = d₂ := by
  interval_cases d₁ <;> interval_cases d₂ <;> simp_all [digitChar48]

theorem map_digitChar48_inj :
    ∀ (l₁ l₂ : List Nat), (∀ d ∈ l₁, d < 10) → (∀ d ∈ l₂, d < 10) →
      l₁.map digitChar48 = l₂.map digitChar48 → l₁ = l₂ := by
  intro l₁
  induction l₁ with
  | nil => intro l₂ _ _ h; cases l₂ <;> simp_all
  | cons d rest ih =>
    intro l₂ hb₁ hb₂ h
    cases l₂ with
    | nil => simp_all
    | cons d' rest' =>
      simp only [List.map_cons, List.cons.injEq] at h
      have hd := digitChar48_inj (hb₁ d (by simp)) (hb₂ d' (by simp)) h.1
      have := ih rest' (fun x hx => hb₁ x (by simp [hx])) (fun x hx => hb₂ x (by simp [hx])) h.2
      simp [hd, this]

/-- Python's `str(n)` for a natural number: big-endian decimal rendering. -/
def pyStr (n : Nat) : String :=
  String.mk ((decimalDigits n).reverse.map digitChar48)

/-- The id `f"doc_{i}"` assigned by both stores when ids are omitted. -/
def docId (i : Nat) : String := "doc_" ++ pyStr i

theorem string_data_append (a b : String) : (a ++ b).data = a.data ++ b.data := rfl

theorem docId_injective : Function.Injective docId := by
  intro a b h
  have hdata : (docId a).data = (docId b).data := by rw [h]
  simp only [docId, string_data_append] at hdata
  have h2 : (pyStr a).data = (pyStr b).data := List.append_cancel_left hdata
  simp only [pyStr] at h2
  have h3 := map_digitChar48_inj (decimalDigits a).reverse (decimalDigits b).reverse
    (fun d hd => decimalDigitsAux_lt_ten _ _ d (List.mem_reverse.mp hd))
    (fun d hd => decimalDigitsAux_lt_ten _ _ d (List.mem_reverse.mp hd)) h2
  exact decimalDigits_injective (List.reverse_injective h3)

/-- A metadata value as stored by the vector stores: this repository only
stores strings and numbers in metadata maps. -/
inductive MetaVal where
  | str (s : String)
  | num (q : ℚ)
deriving DecidableEq, Repr

/-- One stored document record of `FAISSVectorStore.documents`:
`{'id': doc_id, 'text': text, 'metadata': metadata}`. -/
structure Doc where
  id : String
  text : String
  metadata : List (String × MetaVal)
deriving DecidableEq, Repr

/-- Id assignment of `ChromaVectorStore.add_documents`:
`ids = [f"doc_{i}" for i in range(len(texts))]` when `ids is None` —
computed from the batch positions alone, without consulting the
collection's current count. -/
def chromaAssignIds (texts : List String) (ids : Option (List String)) : List String :=
  match ids with
  | some given => given
  | none => (List.range texts.length).map docId

/-- In-memory state of a `FAISSVectorStore`: the parallel record list
(the embedding matrix is irrelevant to id assignment). -/
structure FaissStore where
  documents : List Doc
deriving DecidableEq, Repr

/-- Id assignment of `FAISSVectorStore.add_documents`:
`ids = [f"doc_{len(self.documents) + i}" for i in range(len(texts))]`
when `ids is None` — offset by the current stored-document count. -/
def faissAssignIds (st : FaissStore) (texts : List String)
    (ids : Option (List String)) : List String :=
  match ids with
  | some given => given
  | none => (List.range texts.length).map (fun i => docId (st.documents.length + i))

/-- `FAISSVectorStore.add_documents`: assigns ids, then appends one record
per `zip(texts, metadatas, ids)` triple to `self.documents`.  Returns the
new state and the ids used. -/
def faissAddDocuments (st : FaissStore) (texts : List String)
    (metadatas : List (List (String × MetaVal))) (ids : Option (List String)) :
    FaissStore × List String :=
  let usedIds := faissAssignIds st texts ids
  let newDocs := (texts.zip (metadatas.zip usedIds)).map
    (fun p => Doc.mk p.2.2 p.1 p.2.1)
  (⟨st.documents ++ newDocs⟩, usedIds)

end VStore

theorem chroma_doc0_mem (texts : List String) (h : texts ≠ []) :
    VStore.docId 0 ∈ VStore.chromaAssignIds texts none := by
  simp only [VStore.chromaAssignIds, List.mem_map]
  exact ⟨0, by simpa using List.length_pos.mpr h, rfl⟩

theorem faiss_ids_formula (st : VStore.FaissStore) (texts : List String) :
    (VStore.faissAddDocuments st texts metas none).2 =
      (List.range texts.length).map (fun i => VStore.docId (st.documents.length + i)) := rfl

/-- C9: with `ids` omitted, `ChromaVectorStore.add_documents` assigns
`doc_0 … doc_{n-1}` from batch positions alone (the assignment never
consults the collection count), so any two successive ids-omitted calls
with nonempty batches share the id `doc_0`; whereas
`FAISSVectorStore.add_documents` offsets omitted ids by the current
stored-document count, so the ids of two successive calls (with texts and
metadatas of matching lengths) are all distinct. -/
theorem add_documents_id_policy :
    (∀ t₁ t₂ : List String, t₁ ≠ [] → t₂ ≠ [] →
      ∃ i, i ∈ VStore.chromaAssignIds t₁ none ∧ i ∈ VStore.chromaAssignIds t₂ none) ∧
    (∀ (st : VStore.FaissStore) (t₁ t₂ : List String)
        (m₁ m₂ : List (List (String × VStore.MetaVal))),
      t₁.length = m₁.length → t₂.length = m₂.length →
      ((VStore.faissAddDocuments st t₁ m₁ none).2 ++
        (VStore.faissAddDocuments (VStore.faissAddDocuments st t₁ m₁ none).1 t₂ m₂ none).2).Nodup) := by
  constructor
  · intro t₁ t₂ h₁ h₂
    exact ⟨VStore.docId 0, chroma_doc0_mem t₁ h₁, chroma_doc0_mem t₂ h₂⟩
  · intro st t₁ t₂ m₁ m₂ hm₁ hm₂
    set n₀ := st.documents.length with hn₀
    have hids₁ : (VStore.faissAddDocuments st t₁ m₁ none).2 =
        (List.range t₁.length).map (fun i => VStore.docId (n₀ + i)) := rfl
    have hlen₁ : (VStore.faissAddDocuments st t₁ m₁ none).1.documents.length =
        n₀ + t₁.length := by
      simp only [VStore.faissAddDocuments, VStore.faissAssignIds, List.length_append,
        List.length_map, List.length_zip, List.length_range]
      omega
    have hids₂ : (VStore.faissAddDocuments (VStore.faissAddDocuments st t₁ m₁ none).1
        t₂ m₂ none).2 =
        (List.range t₂.length).map (fun i => VStore.docId (n₀ + t₁.length + i)) := by
      show (List.range t₂.length).map
          (fun i => VStore.docId ((VStore.faissAddDocuments st t₁ m₁ none).1.documents.length + i)) =
        (List.range t₂.length).map (fun i => VStore.docId (n₀ + t₁.length + i))
      rw [hlen₁]
    rw [hids₁, hids₂]
    have hinj : ∀ c : Nat, Function.Injective (fun i => VStore.docId (c + i)) := by
      intro c a b hab
      have := VStore.docId_injective hab
      omega
    rw [List.nodup_append]
    refine ⟨(List.nodup_range _).map (hinj n₀), (List.nodup_range _).map (hinj _), ?_⟩
    intro x hx₁ hx₂
    obtain ⟨i, hi, rfl⟩ := List.mem_map.mp hx₁
    obtain ⟨j, hj, hji⟩ := List.mem_map.mp hx₂
    have := VStore.docId_injective hji
    rw [List.mem_range] at hi hj
    omega

/-- Witness for `add_documents_id_policy`: instantiated with two singleton
batches against an initially empty FAISS store: the Chroma ids overlap,
the FAISS ids are `doc_0` then `doc_1`, all distinct. -/
theorem add_documents_id_policy_witness :
    (∃ i, i ∈ VStore.chromaAssignIds ["a"] none ∧
          i ∈ VStore.chromaAssignIds ["b"] none) ∧
    ((VStore.faissAddDocuments ⟨[]⟩ ["a"] [[]] none).2 ++
      (VStore.faissAddDocuments (VStore.faissAddDocuments ⟨[]⟩ ["a"] [[]] none).1
        ["b"] [[]] none).2).Nodup :=
  ⟨add_documents_id_policy.1 ["a"] ["b"] (by decide) (by decide),
   add_documents_id_policy.2 ⟨[]⟩ ["a"] ["b"] [[]] [[]] (by decide) (by decide)⟩

namespace PySort

/-- Insert `a` into a descending-by-key list, after any element with an
equal or larger key (this is the stable placement that Python's `sorted`
with `reverse=True` produces; for the pandas `sort_values` call in
`process_culpa_ratings` the properties proved below are insensitive to the
tie order, so the same model is used). -/
def insertDescBy {α : Type} (key : α → ℚ) (a : α) : List α → List α
  | [] => [a]
  | x :: xs => if key x < key a then a :: x :: xs else x :: insertDescBy key a xs

/-- Sort a list descending by a rational key. -/
def sortDescBy {α : Type} (key : α → ℚ) : List α → List α
  | [] => []
  | x :: xs => insertDescBy key x (sortDescBy key xs)

theorem insertDescBy_perm {α : Type} (key : α → ℚ) (a : α) :
    ∀ l : List α, List.Perm (insertDescBy key a l) (a :: l) := by
  intro l
  induction l with
  | nil => simp [insertDescBy]
  | cons x xs ih =>
    by_cases h : key x < key a
    · simp [insertDescBy, h]
    · simp only [insertDescBy, if_neg h]
      exact (ih.cons x).trans (List.Perm.swap a x xs)

theorem sortDescBy_perm {α : Type} (key : α → ℚ) :
    ∀ l : List α, List.Perm (sortDescBy key l) l := by
  intro l
  induction l with
  | nil => simp [sortDescBy]
  | cons x xs ih =>
    exact (insertDescBy_perm key x (sortDescBy key xs)).trans (ih.cons x)

theorem insertDescBy_sorted {α : Type} (key : α → ℚ) (a : α) :
    ∀ l : List α, l.Pairwise (fun p q => key q ≤ key p) →
      (insertDescBy key a l).Pairwise (fun p q => key q ≤ key p) := by
  intro l
  induction l with
  | nil => simp [insertDescBy]
  | cons x xs ih =>
    intro hs
    rw [List.pairwise_cons] at hs
    by_cases h : key x < key a
    · rw [insertDescBy, if_pos h, List.pairwise_cons]
      refine ⟨?_, List.pairwise_cons.mpr hs⟩
      intro b hb
      rcases List.mem_cons.mp hb with rfl | hb
      · exact le_of_lt h
      · exact le_trans (hs.1 b hb) (le_of_lt h)
    · rw [insertDescBy, if_neg h, List.pairwise_cons]
      refine ⟨?_, ih hs.2⟩
      intro b hb
      rcases List.mem_cons.mp ((insertDescBy_perm key a xs).mem_iff.mp hb) with rfl | hb
      · exact not_lt.mp h
      · exact hs.1 b hb

theorem sortDescBy_sorted {α : Type} (key : α → ℚ) :
    ∀ l : List α, (sortDescBy key l).Pairwise (fun p q => key q ≤ key p) := by
  intro l
  induction l with
  | nil => simp [sortDescBy]
  | cons x xs ih => exact insertDescBy_sorted key x _ ih

end PySort

namespace Retriever

open VStore (MetaVal Doc)

/-- One search hit as returned by `VectorStore.search`:
`{'text': …, 'metadata': …, 'distance': …, 'id': …}`. -/
structure SearchHit where
  text : String
  metadata : List (String × MetaVal)
  distance : ℚ
  id : String
deriving DecidableEq, Repr

/-- A retrieved hit after `RAGRetriever.retrieve` annotates it with
`result['similarity'] = 1 - result['distance']`. -/
structure ScoredHit where
  hit : SearchHit
  similarity : ℚ
deriving DecidableEq, Repr

/-- `result['similarity'] = similarity` annotation step. -/
def annotate (h : SearchHit) : ScoredHit := ⟨h, 1 - h.distance⟩

/-- The filtering loop of `RAGRetriever.retrieve`: walk the store's hits in
order, keep those with `1 - distance ≥ min_score`, stop once `k` qualify. -/
def retrieveLoop (k : Nat) (minScore : ℚ) :
    List SearchHit → List ScoredHit → List ScoredHit
  | [], acc => acc
  | h :: rest, acc =>
    let acc' := if minScore ≤ 1 - h.distance then acc ++ [annotate h] else acc
    if k ≤ acc'.length then acc' else retrieveLoop k minScore rest acc'

/-- `RAGRetriever.retrieve(query, k, filter_dict, min_score)` after the
embedding and `vector_store.search` boundary: `storeHits` is the hit list
the store returned for the over-fetched `k * 2` query. -/
def retrieve (storeHits : List SearchHit) (k : Nat) (minScore : ℚ) :
    List ScoredHit :=
  retrieveLoop k minScore storeHits []

theorem retrieveLoop_sim (k : Nat) (m : ℚ) :
    ∀ (hits : List SearchHit) (acc : List ScoredHit) (r : ScoredHit),
      r ∈ retrieveLoop k m hits acc → r ∈ acc ∨ m ≤ r.similarity := by
  intro hits
  induction hits with
  | nil => intro acc r hr; exact Or.inl hr
  | cons h rest ih =>
    intro acc r hr
    rw [retrieveLoop] at hr
    by_cases hq : m ≤ 1 - h.distance
    · simp only [if_pos hq] at hr
      have key : r ∈ acc ++ [annotate h] → r ∈ acc ∨ m ≤ r.similarity := by
        intro hmem
        rcases List.mem_append.mp hmem with hmem | hmem
        · exact Or.inl hmem
        · right
          rcases List.mem_singleton.mp hmem with rfl
          exact hq
      by_cases hk : k ≤ (acc ++ [annotate h]).length
      · rw [if_pos hk] at hr; exact key hr
      · rw [if_neg hk] at hr
        rcases ih _ r hr with hmem | hsim
        · exact key hmem
        · exact Or.inr hsim
    · simp only [if_neg hq] at hr
      by_cases hk : k ≤ acc.length
      · rw [if_pos hk] at hr; exact Or.inl hr
      · rw [if_neg hk] at hr; exact ih _ r hr

theorem retrieveLoop_closed (k : Nat) (m : ℚ) :
    ∀ (hits : List SearchHit) (acc : List ScoredHit), acc.length < k →
      retrieveLoop k m hits acc =
        acc ++ (((hits.filter (fun h => decide (m ≤ 1 - h.distance))).map
          annotate).take (k - acc.length)) := by
  intro hits
  induction hits with
  | nil => intro acc _; simp [retrieveLoop]
  | cons h rest ih =>
    intro acc hlen
    rw [retrieveLoop]
    by_cases hq : m ≤ 1 - h.distance
    · rw [if_pos hq, List.filter_cons_of_pos (by simpa using hq), List.map_cons]
      by_cases hk : k ≤ (acc ++ [annotate h]).length
      · rw [if_pos hk]
        have hk1 : k - acc.length = 1 := by
          simp only [List.length_append, List.length_singleton] at hk
          omega
        rw [hk1, List.take_succ_cons, List.take_zero]
      · rw [if_neg hk]
        have hlt : (acc ++ [annotate h]).length < k := lt_of_not_le hk
        rw [ih _ hlt]
        have hk2 : k - acc.length = (k - (acc ++ [annotate h]).length) + 1 := by
          simp only [List.length_append, List.length_singleton] at *
          omega
        rw [hk2, List.take_succ_cons, List.append_assoc]
        rfl
    · rw [if_neg hq, List.filter_cons_of_neg (by simpa using hq)]
      have hk : ¬ k ≤ acc.length := not_le.mpr hlen
      rw [if_neg hk]
      exact ih acc hlen

theorem filter_prefix_of_sorted (m₁ m₂ : ℚ) (hm : m₂ ≤ m₁) :
    ∀ hits : List SearchHit,
      hits.Pairwise (fun a b => a.distance ≤ b.distance) →
      (hits.filter (fun h => decide (m₁ ≤ 1 - h.distance))) <+:
        (hits.filter (fun h => decide (m₂ ≤ 1 - h.distance))) := by
  intro hits
  induction hits with
  | nil => intro _; simp
  | cons h rest ih =>
    intro hs
    rw [List.pairwise_cons] at hs
    by_cases hq : m₁ ≤ 1 - h.distance
    · have hq₂ : m₂ ≤ 1 - h.distance := le_trans hm hq
      rw [List.filter_cons_of_pos (by simpa using hq),
        List.filter_cons_of_pos (by simpa using hq₂)]
      obtain ⟨t, ht⟩ := ih hs.2
      exact ⟨t, by rw [← ht]; rfl⟩
    · have h₁ : (rest.filter (fun x => decide (m₁ ≤ 1 - x.distance))) = [] := by
        rw [List.filter_eq_nil_iff]
        intro b hb
        have hd := hs.1 b hb
        simp only [decide_eq_true_eq]
        intro hcontra
        exact hq (le_trans hcontra (by linarith))
      rw [List.filter_cons_of_neg (by simpa using hq), h₁]
      exact List.nil_prefix

theorem take_prefix_mono {α : Type} {l₁ l₂ : List α} (h : l₁ <+: l₂) (n : Nat) :
    l₁.take n <+: l₂.take n := by
  obtain ⟨t, rfl⟩ := h
  rw [List.take_append_eq_append_take]
  exact List.prefix_append _ _

end Retriever

/-- C7: over any store hit list sorted by non-decreasing distance, every
item returned by `retrieve` at `min_score = 0.9` carries
`similarity = 1 - distance ≥ 0.9`, and the ids returned at
`min_score = 0.9` are a subset of the ids returned at `min_score = 0.0`
with the same `k`. -/
theorem retrieve_min_score_subset (hits : List Retriever.SearchHit) (k : Nat)
    (hsorted : hits.Pairwise (fun a b => a.distance ≤ b.distance)) :
    (∀ r ∈ Retriever.retrieve hits k (9/10), (9:ℚ)/10 ≤ r.similarity) ∧
    (∀ r ∈ Retriever.retrieve hits k (9/10),
      r.hit.id ∈ (Retriever.retrieve hits k 0).map (fun s => s.hit.id)) := by
  constructor
  · intro r hr
    rcases Retriever.retrieveLoop_sim k (9/10) hits [] r hr with hmem | hsim
    · simp at hmem
    · exact hsim
  · rcases Nat.eq_zero_or_pos k with rfl | hk
    · intro r hr
      cases hits with
      | nil => simp [Retriever.retrieve, Retriever.retrieveLoop] at hr
      | cons h rest =>
        rw [Retriever.retrieve, Retriever.retrieveLoop] at hr ⊢
        by_cases hq : (9:ℚ)/10 ≤ 1 - h.distance
        · have hq₀ : (0:ℚ) ≤ 1 - h.distance := by linarith
          rw [if_pos hq] at hr
          simp only [List.nil_append, List.length_singleton, Nat.zero_le, if_true] at hr
          rcases List.mem_singleton.mp hr with rfl
          simp [hq₀, Retriever.retrieveLoop]
        · rw [if_neg hq] at hr
          simp at hr
    · have hc₉ := Retriever.retrieveLoop_closed k (9/10) hits []
        (by simpa using hk)
      have hc₀ := Retriever.retrieveLoop_closed k 0 hits []
        (by simpa using hk)
      intro r hr
      rw [Retriever.retrieve, hc₉] at hr
      rw [Retriever.retrieve, hc₀]
      simp only [List.nil_append, Nat.sub_zero] at hr ⊢
      have hpref := Retriever.take_prefix_mono
        ((Retriever.filter_prefix_of_sorted (9/10) 0 (by norm_num) hits hsorted).map
          Retriever.annotate) k
      exact List.mem_map_of_mem _ (hpref.subset hr)

/-- Witness for `retrieve_min_score_subset`: two hits at distances 0 and 1,
sorted; the theorem applies and its conclusion holds for them. -/
theorem retrieve_min_score_subset_witness :
    (∀ r ∈ Retriever.retrieve
        [⟨"a", [], 0, "id0"⟩, ⟨"b", [], 1, "id1"⟩] 5 (9/10), (9:ℚ)/10 ≤ r.similarity) ∧
    (∀ r ∈ Retriever.retrieve
        [⟨"a", [], 0, "id0"⟩, ⟨"b", [], 1, "id1"⟩] 5 (9/10),
      r.hit.id ∈ (Retriever.retrieve
        [⟨"a", [], 0, "id0"⟩, ⟨"b", [], 1, "id1"⟩] 5 0).map (fun s => s.hit.id)) :=
  retrieve_min_score_subset [⟨"a", [], 0, "id0"⟩, ⟨"b", [], 1, "id1"⟩] 5
    (by constructor <;> simp)

namespace Retriever

open VStore (MetaVal Doc)

/-- Metadata filter test of `FAISSVectorStore.search`:
`all(doc['metadata'].get(key) == value for key, value in filter_dict.items())`
(with no filter, every document passes). -/
def filterMatches (filter : Option (List (String × MetaVal))) (doc : Doc) : Bool :=
  match filter with
  | none => true
  | some kvs => kvs.all (fun kv => doc.metadata.lookup kv.1 = some kv.2)

/-- The post-ranking loop of `FAISSVectorStore.search`: `oracle` is the
(distance, index) ranking produced by the external `faiss` index for the
normalized query (faiss yields indices that are `-1` or in range, so the
in-range guard mirrors `if idx == -1 or idx >= len(self.documents)`);
documents failing the metadata filter are skipped; collection stops at `k`
appended results. -/
def faissSearchLoop (docs : List Doc) (filter : Option (List (String × MetaVal)))
    (k : Nat) : List (ℚ × Int) → List SearchHit → List SearchHit
  | [], acc => acc
  | (dist, idx) :: rest, acc =>
    if idx = -1 ∨ (docs.length : Int) ≤ idx then faissSearchLoop docs filter k rest acc
    else
      match docs.get? idx.toNat with
      | none => faissSearchLoop docs filter k rest acc
      | some doc =>
        if filterMatches filter doc then
          let acc' := acc ++ [⟨doc.text, doc.metadata, dist, doc.id⟩]
          if k ≤ acc'.length then acc' else faissSearchLoop docs filter k rest acc'
        else faissSearchLoop docs filter k rest acc

/-- `FAISSVectorStore.search(query_embedding, k, filter_dict)` after the
faiss ranking boundary. -/
def faissSearch (docs : List Doc) (oracle : List (ℚ × Int)) (k : Nat)
    (filter : Option (List (String × MetaVal))) : List SearchHit :=
  faissSearchLoop docs filter k oracle []

/-- `x['metadata'].get('rating', 0)` sort key used by
`ProfessorRatingsRetriever.get_professors_for_course`. -/
def getRating (h : SearchHit) : ℚ :=
  match h.metadata.lookup "rating" with
  | some (MetaVal.num q) => q
  | _ => 0

/-- The `ProfessorRatingsRetriever.get_professors_for_course` definition in
effect (the second class definition in retriever.py shadows the first):
searches the store with `filter_dict={'course_code': course_code}` — the
raw argument, with no normalization or spelling variants — over-fetching
`k * 2`, then returns the top `k` sorted by descending metadata rating.
The synthetic query embedding and faiss ranking are the `oracle`. -/
def get_professors_for_course (docs : List Doc) (oracle : List (ℚ × Int))
    (course_code : String) (k : Nat := 5) : List SearchHit :=
  let results := faissSearch docs oracle (k * 2)
    (some [("course_code", MetaVal.str course_code)])
  (PySort.sortDescBy getRating results).take k

/-- A stored professor-ratings corpus with a single record whose
`course_code` metadata is the normalized form "COMS 4111". -/
def profCorpus : List Doc :=
  [⟨"prof_COMS 4111_Smith_0",
    "COMS 4111 taught by Professor Smith. Rating: 4.0/5.0.",
    [("course_code", MetaVal.str "COMS 4111"),
     ("prof_name", MetaVal.str "Smith"),
     ("rating", MetaVal.num 4)]⟩]

/-- The faiss ranking for `profCorpus` (one stored vector: faiss returns it
as the single candidate whatever the query embedding, with some
similarity score; the score is irrelevant to the filter). -/
def profOracle : List (ℚ × Int) := [(1, 0)]

end Retriever

/-- C1 counterexample: against a corpus storing one record under
course_code "COMS 4111", the in-effect `get_professors_for_course` (which
filters on the raw input only) returns the record for input "COMS 4111"
but an empty list for "COMS4111" and "coms4111" — the three spellings do
not return identical result lists, refuting the claim at this corpus. -/
theorem get_professors_spelling_counterexample :
    ¬ (Retriever.get_professors_for_course Retriever.profCorpus
          Retriever.profOracle "COMS 4111" =
        Retriever.get_professors_for_course Retriever.profCorpus
          Retriever.profOracle "COMS4111" ∧
       Retriever.get_professors_for_course Retriever.profCorpus
          Retriever.profOracle "COMS4111" =
        Retriever.get_professors_for_course Retriever.profCorpus
          Retriever.profOracle "coms4111") := by
  intro h
  have h1 := h.1
  rw [show Retriever.get_professors_for_course Retriever.profCorpus
      Retriever.profOracle "COMS 4111" =
      [⟨"COMS 4111 taught by Professor Smith. Rating: 4.0/5.0.",
        [("course_code", VStore.MetaVal.str "COMS 4111"),
         ("prof_name", VStore.MetaVal.str "Smith"),
         ("rating", VStore.MetaVal.num 4)], 1, "prof_COMS 4111_Smith_0"⟩] from by decide,
    show Retriever.get_professors_for_course Retriever.profCorpus
      Retriever.profOracle "COMS4111" = [] from by decide] at h1
  exact List.cons_ne_nil _ _ h1

/-- C1 amended: the definition of `get_professors_for_course` in effect (the
second class definition shadows the disjunctive-filter one) filters solely
on verbatim equality of the stored `course_code` with the raw input, so
with a record stored under "COMS 4111" the input "COMS 4111" returns it
while "COMS4111" and "coms4111" return nothing. -/
theorem get_professors_raw_filter_only :
    Retriever.get_professors_for_course Retriever.profCorpus
        Retriever.profOracle "COMS 4111" =
      [⟨"COMS 4111 taught by Professor Smith. Rating: 4.0/5.0.",
        [("course_code", VStore.MetaVal.str "COMS 4111"),
         ("prof_name", VStore.MetaVal.str "Smith"),
         ("rating", VStore.MetaVal.num 4)], 1, "prof_COMS 4111_Smith_0"⟩] ∧
    Retriever.get_professors_for_course Retriever.profCorpus
        Retriever.profOracle "COMS4111" = [] ∧
    Retriever.get_professors_for_course Retriever.profCorpus
        Retriever.profOracle "coms4111" = [] := by
  refine ⟨by decide, by decide, by decide⟩

namespace DocProc

/-- A sentence produced by `_split_into_sentences`, represented by its list
of whitespace-separated words (so `len(sentence.split())` is its length;
the splitter returns nonempty, stripped sentences, and joining chunks with
`' '.join` and re-splitting concatenates the word lists). -/
abbrev Sentence := List String

/-- Word count of a chunk (a list of sentences):
`len(' '.join(chunk).split())`. -/
def chunkWords (c : List Sentence) : Nat := (c.map List.length).sum

/-- The overlap-window scan in `chunk_text`: walk the closed chunk's
sentences in reverse, prepending each while the accumulated word count
stays within `chunk_overlap`; returns `(overlap_words, overlap_length)`. -/
def overlapSeedAux (ov : Nat) : List Sentence → List Sentence → Nat → List Sentence × Nat
  | [], acc, len => (acc, len)
  | s :: rest, acc, len =>
    if len + s.length ≤ ov then overlapSeedAux ov rest (s :: acc) (len + s.length)
    else (acc, len)

/-- The overlap seed taken from a closed chunk. -/
def overlapSeed (ov : Nat) (chunk : List Sentence) : List Sentence :=
  (overlapSeedAux ov chunk.reverse [] 0).1

/-- The accumulation loop of `DocumentProcessor.chunk_text`: for each
sentence, close the current chunk when adding the sentence would push it
past `chunk_size` words (and the chunk is nonempty), seeding the next
chunk with the overlap window; finally emit any nonempty remainder. -/
def chunkLoop (size ov : Nat) : List Sentence → List Sentence → Nat → List (List Sentence)
  | [], cur, _ => if cur.isEmpty then [] else [cur]
  | s :: rest, cur, curLen =>
    if size < curLen + s.length ∧ cur ≠ [] then
      let seed := overlapSeedAux ov cur.reverse [] 0
      cur :: chunkLoop size ov rest (seed.1 ++ [s]) (seed.2 + s.length)
    else
      chunkLoop size ov rest (cur ++ [s]) (curLen + s.length)

/-- `DocumentProcessor.chunk_text` over the sentence list produced by the
regex splitter (empty text produces no sentences and no chunks). -/
def chunk_text (size ov : Nat) (sentences : List Sentence) : List (List Sentence) :=
  chunkLoop size ov sentences [] 0

theorem overlapSeedAux_len (ov : Nat) :
    ∀ (rev acc : List Sentence) (len : Nat), len = chunkWords acc →
      (overlapSeedAux ov rev acc len).2 = chunkWords (overlapSeedAux ov rev acc len).1 := by
  intro rev
  induction rev with
  | nil => intro acc len h; simpa [overlapSeedAux] using h
  | cons s rest ih =>
    intro acc len h
    rw [overlapSeedAux]
    by_cases hle : len + s.length ≤ ov
    · rw [if_pos hle]
      exact ih (s :: acc) _ (by simp [chunkWords, h]; ring)
    · rw [if_neg hle]; exact h

theorem overlapSeedAux_le (ov : Nat) :
    ∀ (rev acc : List Sentence) (len : Nat), len = chunkWords acc → len ≤ ov →
      chunkWords (overlapSeedAux ov rev acc len).1 ≤ ov := by
  intro rev
  induction rev with
  | nil => intro acc len h hle; simpa [overlapSeedAux, ← h] using hle
  | cons s rest ih =>
    intro acc len h hle
    rw [overlapSeedAux]
    by_cases hc : len + s.length ≤ ov
    · rw [if_pos hc]
      exact ih (s :: acc) _ (by simp [chunkWords, h]; ring) hc
    · rw [if_neg hc]; simpa [← h] using hle

theorem overlapSeedAux_suffix (ov : Nat) :
    ∀ (rev acc : List Sentence) (len : Nat),
      (overlapSeedAux ov rev acc len).1 <:+ (rev.reverse ++ acc) := by
  intro rev
  induction rev with
  | nil => intro acc len; simp [overlapSeedAux]
  | cons s rest ih =>
    intro acc len
    rw [overlapSeedAux]
    by_cases hc : len + s.length ≤ ov
    · rw [if_pos hc]
      have := ih (s :: acc) (len + s.length)
      simpa [List.append_assoc] using this
    · rw [if_neg hc]
      show acc <:+ (s :: rest).reverse ++ acc
      rw [List.reverse_cons, List.append_assoc]
      exact (List.suffix_append [s] acc).trans (List.suffix_append _ _)

theorem overlapSeed_suffix (ov : Nat) (chunk : List Sentence) :
    overlapSeed ov chunk <:+ chunk := by
  have := overlapSeedAux_suffix ov chunk.reverse [] 0
  simpa [overlapSeed] using this

theorem overlapSeed_le (ov : Nat) (chunk : List Sentence) :
    chunkWords (overlapSeed ov chunk) ≤ ov :=
  overlapSeedAux_le ov chunk.reverse [] 0 (by simp [chunkWords]) (Nat.zero_le ov)

theorem chunkWords_append (a b : List Sentence) :
    chunkWords (a ++ b) = chunkWords a + chunkWords b := by
  simp [chunkWords]

theorem chunkWords_singleton (s : Sentence) : chunkWords [s] = s.length := by
  simp [chunkWords]

theorem chunkLoop_bound (size ov : Nat) (hov : ov ≤ size) :
    ∀ (sents cur : List Sentence) (curLen : Nat),
      curLen = chunkWords cur → chunkWords cur ≤ size →
      (∀ s ∈ sents, s.length ≤ size - ov) →
      ∀ c ∈ chunkLoop size ov sents cur curLen, chunkWords c ≤ size := by
  intro sents
  induction sents with
  | nil =>
    intro cur curLen _ hb _ c hc
    rw [chunkLoop] at hc
    by_cases he : cur.isEmpty
    · simp [he] at hc
    · simp only [he, Bool.false_eq_true, if_false, List.mem_singleton] at hc
      subst hc; exact hb
  | cons s rest ih =>
    intro cur curLen hlen hb hs c hc
    rw [chunkLoop] at hc
    by_cases hcond : size < curLen + s.length ∧ cur ≠ []
    · rw [if_pos hcond] at hc
      rcases List.mem_cons.mp hc with rfl | hc
      · exact hb
      · have hseedlen : (overlapSeedAux ov cur.reverse [] 0).2 =
            chunkWords (overlapSeedAux ov cur.reverse [] 0).1 :=
          overlapSeedAux_len ov cur.reverse [] 0 (by simp [chunkWords])
        have hseedle : chunkWords (overlapSeedAux ov cur.reverse [] 0).1 ≤ ov :=
          overlapSeed_le ov cur
        refine ih _ _ ?_ ?_ (fun x hx => hs x (List.mem_cons_of_mem s hx)) c hc
        · rw [chunkWords_append, hseedlen]
          simp [chunkWords]
        · rw [chunkWords_append, chunkWords_singleton]
          have hsb : s.length ≤ size - ov := hs s (List.mem_cons_self s rest)
          omega
    · rw [if_neg hcond] at hc
      push_neg at hcond
      refine ih _ _ ?_ ?_ (fun x hx => hs x (List.mem_cons_of_mem s hx)) c hc
      · rw [chunkWords_append, hlen, chunkWords_singleton]
      · rw [chunkWords_append, chunkWords_singleton]
        by_cases hemp : cur = []
        · subst hemp
          have hsb : s.length ≤ size - ov := hs s (List.mem_cons_self s rest)
          simp only [chunkWords, List.map_nil, List.sum_nil]
          omega
        · have h2 : ¬ size < curLen + s.length := fun h => hemp (hcond h)
          omega

theorem chunkLoop_head_prefix (size ov : Nat) :
    ∀ (sents cur : List Sentence) (curLen : Nat) (c : List Sentence),
      (chunkLoop size ov sents cur curLen).head? = some c → cur <+: c := by
  intro sents
  induction sents with
  | nil =>
    intro cur curLen c hc
    rw [chunkLoop] at hc
    by_cases he : cur.isEmpty
    · simp [he] at hc
    · simp only [he, Bool.false_eq_true, if_false, List.head?_cons,
        Option.some.injEq] at hc
      subst hc; exact List.prefix_refl cur
  | cons s rest ih =>
    intro cur curLen c hc
    rw [chunkLoop] at hc
    by_cases hcond : size < curLen + s.length ∧ cur ≠ []
    · rw [if_pos hcond] at hc
      simp only [List.head?_cons, Option.some.injEq] at hc
      subst hc; exact List.prefix_refl cur
    · rw [if_neg hcond] at hc
      exact (List.prefix_append cur [s]).trans (ih _ _ c hc)

theorem chunkLoop_chain (size ov : Nat) :
    ∀ (sents cur : List Sentence) (curLen : Nat),
      List.Chain' (fun c c' => overlapSeed ov c <+: c')
        (chunkLoop size ov sents cur curLen) := by
  intro sents
  induction sents with
  | nil =>
    intro cur curLen
    rw [chunkLoop]
    by_cases he : cur.isEmpty <;> simp [he]
  | cons s rest ih =>
    intro cur curLen
    rw [chunkLoop]
    by_cases hcond : size < curLen + s.length ∧ cur ≠ []
    · rw [if_pos hcond]
      rw [List.chain'_cons']
      refine ⟨?_, ih _ _⟩
      intro b hb
      have hpre := chunkLoop_head_prefix size ov rest _ _ b hb
      exact (List.prefix_append _ [s]).trans hpre
    · rw [if_neg hcond]
      exact ih _ _

/-- Sentences of a text whose middle sentence has 550 words: 100 words + a
period, 550 words + a period, 10 words. -/
def exSentences : List Sentence :=
  [List.replicate 100 "w", List.replicate 550 "w", List.replicate 10 "w"]

end DocProc

set_option maxRecDepth 100000 in
/-- C3 counterexample: chunking the text whose sentences have 100, 550 and
10 words (chunk_size=600, chunk_overlap=100) produces chunks of 100, 650
and 10 words — the second chunk is not the final one and exceeds 600
words, refuting the claimed bound.  (The 650-word chunk is the 100-word
overlap seed plus the 550-word sentence appended after the close check.) -/
theorem chunk_bound_counterexample :
    (DocProc.chunk_text 600 100 DocProc.exSentences).map DocProc.chunkWords =
      [100, 650, 10] ∧
    ¬ (∀ c ∈ (DocProc.chunk_text 600 100 DocProc.exSentences).dropLast,
        DocProc.chunkWords c ≤ 600) := by
  constructor
  · decide
  · decide

/-- C3 amended: when `chunk_overlap ≤ chunk_size` and every sentence has at
most `chunk_size - chunk_overlap` words (500 for the 600/100 defaults),
every chunk — final included — has at most `chunk_size` words; without the
sentence-length proviso a non-final chunk can exceed the bound.  The
overlap window of each non-final chunk — a whole-sentence suffix of it of
at most `chunk_overlap` words — reappears verbatim as the leading
sentences of the next chunk. -/
theorem chunk_text_bound_and_overlap (size ov : Nat)
    (sentences : List DocProc.Sentence) (hov : ov ≤ size)
    (hs : ∀ s ∈ sentences, s.length ≤ size - ov) :
    (∀ c ∈ DocProc.chunk_text size ov sentences, DocProc.chunkWords c ≤ size) ∧
    List.Chain' (fun c c' => DocProc.overlapSeed ov c <:+ c ∧
        DocProc.chunkWords (DocProc.overlapSeed ov c) ≤ ov ∧
        DocProc.overlapSeed ov c <+: c')
      (DocProc.chunk_text size ov sentences) := by
  constructor
  · exact DocProc.chunkLoop_bound size ov hov sentences [] 0
      (by simp [DocProc.chunkWords]) (by simp [DocProc.chunkWords]) hs
  · refine (DocProc.chunkLoop_chain size ov sentences [] 0).imp ?_
    intro c c' hp
    exact ⟨DocProc.overlapSeed_suffix ov c, DocProc.overlapSeed_le ov c, hp⟩

set_option maxRecDepth 100000 in
/-- Witness for `chunk_text_bound_and_overlap` at chunk_size 600, overlap
100, and a concrete three-sentence input with 400, 300 and 2 words. -/
theorem chunk_text_bound_and_overlap_witness :
    (∀ c ∈ DocProc.chunk_text 600 100
        [List.replicate 400 "w", List.replicate 300 "w", ["x", "y"]],
      DocProc.chunkWords c ≤ 600) ∧
    List.Chain' (fun c c' => DocProc.overlapSeed 100 c <:+ c ∧
        DocProc.chunkWords (DocProc.overlapSeed 100 c) ≤ 100 ∧
        DocProc.overlapSeed 100 c <+: c')
      (DocProc.chunk_text 600 100
        [List.replicate 400 "w", List.replicate 300 "w", ["x", "y"]]) :=
  chunk_text_bound_and_overlap 600 100
    [List.replicate 400 "w", List.replicate 300 "w", ["x", "y"]]
    (by decide) (by decide)

namespace DocProc

/-- Python `\w` on the ASCII inputs involved: letters, digits, underscore. -/
def isWordChar (c : Char) : Bool := c.isAlphanum || c = '_'

/-- Python `\s` (ASCII range): space, tab, newline, CR, VT, FF. -/
def isPySpace (c : Char) : Bool :=
  c = ' ' || c = '\t' || c = '\n' || c = '\r' || c = '\x0b' || c = '\x0c'

def isUpperAZ (c : Char) : Bool := 'A' ≤ c && c ≤ 'Z'

def isDigit09 (c : Char) : Bool := '0' ≤ c && c ≤ '9'

/-- Take exactly `n` leading characters satisfying `p`, returning them and
the rest; `none` if fewer than `n` qualify. -/
def takeCount (p : Char → Bool) : Nat → List Char → Option (List Char × List Char)
  | 0, cs => some ([], cs)
  | _ + 1, [] => none
  | n + 1, c :: rest =>
    if p c then (takeCount p n rest).map (fun pr => (c :: pr.1, pr.2)) else none

/-- Match the regex `[A-Z]{4}\s*\d{4}\b` at the start of `cs` (the leading
`\b` is checked by the caller).  `\s*` is effectively greedy-deterministic
here: whitespace and digits are disjoint, so the whole whitespace run must
be consumed before the four digits.  Returns the matched characters and
the remaining input. -/
def matchCodeAt (cs : List Char) : Option (List Char × List Char) :=
  match takeCount isUpperAZ 4 cs with
  | none => none
  | some (ls, r₁) =>
    let sp := r₁.takeWhile isPySpace
    let r₂ := r₁.dropWhile isPySpace
    match takeCount isDigit09 4 r₂ with
    | none => none
    | some (ds, r₃) =>
      match r₃ with
      | [] => some (ls ++ sp ++ ds, [])
      | c :: _ => if isWordChar c then none else some (ls ++ sp ++ ds, r₃)

/-- `re.findall` scan for the pattern: walk left to right, attempting a
match only at word boundaries (`prevW` tracks whether the previous
character is a word character; a match's last character is a digit, so
scanning resumes with `prevW = true`).  Fuel is the input length: each
step consumes at least one character. -/
def scanCodes : Nat → Bool → List Char → List (List Char)
  | 0, _, _ => []
  | _, _, [] => []
  | fuel + 1, prevW, c :: rest =>
    if !prevW then
      match matchCodeAt (c :: rest) with
      | some (m, rest') => m :: scanCodes fuel true rest'
      | none => scanCodes fuel (isWordChar c) rest
    else scanCodes fuel (isWordChar c) rest

/-- `re.sub(r'\s+', ' ', code)`: collapse each whitespace run to a single
space (fuel-driven; no spaces are inserted where none exist). -/
def collapseWsAux : Nat → List Char → List Char
  | 0, _ => []
  | _ + 1, [] => []
  | fuel + 1, c :: rest =>
    if isPySpace c then ' ' :: collapseWsAux fuel (rest.dropWhile isPySpace)
    else c :: collapseWsAux fuel rest

/-- `DocumentProcessor._extract_course_codes`: find all matches of
`\b[A-Z]{4}\s*\d{4}\b`, collapse whitespace runs in each match, and
deduplicate.  (`list(set(codes))` returns the distinct codes in an
unspecified order; the model keeps first-occurrence order, and the
theorems below only inspect the underlying set.) -/
def extract_course_codes (text : String) : List String :=
  let found := scanCodes text.toList.length false text.toList
  let codes := found.map (fun m => String.mk (collapseWsAux m.length m))
  codes.dedup

end DocProc

/-- C4 counterexample: on "COMS4111 and COMS 4701" the extraction returns
the codes "COMS4111" and "COMS 4701" — `re.sub(r'\s+', ' ', code)` only
collapses existing whitespace runs and inserts no space into "COMS4111" —
so the claimed normalized set {"COMS 4111", "COMS 4701"} is not produced
and "COMS 4111" is absent. -/
theorem extract_course_codes_counterexample :
    DocProc.extract_course_codes "COMS4111 and COMS 4701" =
      ["COMS4111", "COMS 4701"] ∧
    "COMS 4111" ∉ DocProc.extract_course_codes "COMS4111 and COMS 4701" := by
  constructor
  · decide
  · decide

/-- C4 amended: "COMS4111 and COMS 4701" yields exactly the two distinct
codes "COMS4111" and "COMS 4701": whitespace runs inside a match collapse
to a single space (so "COMS  4701" with two spaces also yields
"COMS 4701"), but a zero-space code is kept unspaced, so the result is not
independent of the input spacing. -/
theorem extract_course_codes_amended :
    (DocProc.extract_course_codes "COMS4111 and COMS 4701").toFinset =
      {"COMS4111", "COMS 4701"} ∧
    (DocProc.extract_course_codes "COMS4111 and COMS 4701").Nodup ∧
    DocProc.extract_course_codes "COMS  4701" = ["COMS 4701"] := by
  refine ⟨by decide, by decide, by decide⟩

namespace Culpa

/-- One raw CSV row as `process_culpa_ratings` sees it.  The rating cell is
`none` for a missing value (NaN), `some none` for a non-numeric string
(which `pd.to_numeric(errors='coerce')` turns into NaN), and
`some (some q)` for a numeric value. -/
structure RawRow where
  professor_name : Option String
  rating : Option (Option ℚ)
deriving DecidableEq, Repr

/-- An intermediate row after the rating column is coerced to numbers. -/
structure NumRow where
  professor_name : Option String
  rating : ℚ
deriving DecidableEq, Repr

/-- A processed row: the cleaned columns plus the placeholder columns the
script appends. -/
structure ProcRow where
  professor_name : String
  rating : ℚ
  course_code : String
  tags : String
  semester : String
deriving DecidableEq, Repr

/-- The input DataFrame: which of the two required columns are present
(after `load_culpa_ratings` renaming), and the rows. -/
structure CulpaFrame where
  hasProfessorName : Bool
  hasRating : Bool
  rows : List RawRow
deriving DecidableEq, Repr

/-- Python `str.strip()`: drop whitespace from both ends. -/
def pyStrip (s : String) : String :=
  String.mk (((s.toList.dropWhile DocProc.isPySpace).reverse.dropWhile
    DocProc.isPySpace).reverse)

/-- `df_clean['professor_name'].str.strip()` (NaN stays NaN). -/
def stripNames (rows : List RawRow) : List RawRow :=
  rows.map (fun r => { r with professor_name := r.professor_name.map pyStrip })

/-- `df_clean[df_clean['professor_name'].notna()]`. -/
def dropNaNames (rows : List RawRow) : List RawRow :=
  rows.filter (fun r => r.professor_name.isSome)

/-- `df_clean[df_clean['professor_name'] != '']`. -/
def dropEmptyNames (rows : List RawRow) : List RawRow :=
  rows.filter (fun r => r.professor_name ≠ some "")

/-- `df_clean.dropna(subset=['rating'])`. -/
def dropNaRatings (rows : List RawRow) : List RawRow :=
  rows.filter (fun r => r.rating.isSome)

/-- `pd.to_numeric(..., errors='coerce')` followed by the second
`dropna(subset=['rating'])`: only rows with numeric ratings survive. -/
def coerceRatings (rows : List RawRow) : List NumRow :=
  rows.filterMap (fun r => match r.rating with
    | some (some q) => some ⟨r.professor_name, q⟩
    | _ => none)

/-- The out-of-range check and conditional `clip(0, 5)`. -/
def clampRatings (rows : List NumRow) : List NumRow :=
  let invalid := rows.filter (fun r => r.rating < 0 || 5 < r.rating)
  if invalid.isEmpty then rows
  else rows.map (fun r => { r with rating := max 0 (min r.rating 5) })

/-- Adding the placeholder columns (`course_code`, `tags`, `semester`).
Rows reaching this step always carry a name (`dropNaNames` ran), so the
`getD ""` default never fires. -/
def addPlaceholders (rows : List NumRow) : List ProcRow :=
  rows.map (fun r => ⟨r.professor_name.getD "", r.rating, "", "", "Spring 2025"⟩)

/-- `drop_duplicates(subset=['professor_name'], keep='first')`: keep each
name's first occurrence. -/
def dropDupByNameAux (seen : List String) : List ProcRow → List ProcRow
  | [] => []
  | r :: rest =>
    if r.professor_name ∈ seen then dropDupByNameAux seen rest
    else r :: dropDupByNameAux (r.professor_name :: seen) rest

/-- The duplicate-removal step: only when duplicates exist, sort by rating
descending and keep each professor's first (= highest-rated) row. -/
def dedupeByMaxRating (rows : List ProcRow) : List ProcRow :=
  if (rows.map (fun r => r.professor_name)).dedup.length < rows.length then
    dropDupByNameAux [] (PySort.sortDescBy (fun r => r.rating) rows)
  else rows

/-- The cleaned table just before duplicate removal (strip, NaN/blank-name
drops, rating coercion, conditional clamp, placeholder columns). -/
def survivors (df : CulpaFrame) : List ProcRow :=
  addPlaceholders (clampRatings (coerceRatings (dropNaRatings
    (dropEmptyNames (dropNaNames (stripNames df.rows))))))

/-- `process_culpa_ratings`: raises a missing-column error unless both
canonical columns are present, then cleans and deduplicates. -/
def process_culpa_ratings (df : CulpaFrame) : Except String (List ProcRow) :=
  if ¬ df.hasProfessorName then .error "Missing required column: professor_name"
  else if ¬ df.hasRating then .error "Missing required column: rating"
  else .ok (dedupeByMaxRating (survivors df))

theorem dropDupByNameAux_mem :
    ∀ (l : List ProcRow) (seen : List String) (p : ProcRow),
      p ∈ dropDupByNameAux seen l → p ∈ l := by
  intro l
  induction l with
  | nil => intro seen p hp; simp [dropDupByNameAux] at hp
  | cons r rest ih =>
    intro seen p hp
    rw [dropDupByNameAux] at hp
    by_cases hseen : r.professor_name ∈ seen
    · rw [if_pos hseen] at hp
      exact List.mem_cons_of_mem r (ih seen p hp)
    · rw [if_neg hseen] at hp
      rcases List.mem_cons.mp hp with rfl | hp
      · exact List.mem_cons_self _ _
      · exact List.mem_cons_of_mem r (ih _ p hp)

theorem dropDupByNameAux_not_seen :
    ∀ (l : List ProcRow) (seen : List String) (p : ProcRow),
      p ∈ dropDupByNameAux seen l → p.professor_name ∉ seen := by
  intro l
  induction l with
  | nil => intro seen p hp; simp [dropDupByNameAux] at hp
  | cons r rest ih =>
    intro seen p hp
    rw [dropDupByNameAux] at hp
    by_cases hseen : r.professor_name ∈ seen
    · rw [if_pos hseen] at hp
      exact ih seen p hp
    · rw [if_neg hseen] at hp
      rcases List.mem_cons.mp hp with rfl | hp
      · exact hseen
      · intro hcontra
        exact ih _ p hp (List.mem_cons_of_mem _ hcontra)

theorem dropDupByNameAux_nodup :
    ∀ (l : List ProcRow) (seen : List String),
      ((dropDupByNameAux seen l).map (fun r => r.professor_name)).Nodup := by
  intro l
  induction l with
  | nil => intro seen; simp [dropDupByNameAux]
  | cons r rest ih =>
    intro seen
    rw [dropDupByNameAux]
    by_cases hseen : r.professor_name ∈ seen
    · rw [if_pos hseen]; exact ih seen
    · rw [if_neg hseen]
      simp only [List.map_cons, List.nodup_cons]
      refine ⟨?_, ih _⟩
      intro hcontra
      obtain ⟨p, hp, hpn⟩ := List.mem_map.mp hcontra
      exact dropDupByNameAux_not_seen rest _ p hp (by simp [hpn])

theorem dropDupByNameAux_max :
    ∀ (l : List ProcRow) (seen : List String),
      l.Pairwise (fun a b => b.rating ≤ a.rating) →
      ∀ p ∈ dropDupByNameAux seen l, ∀ r ∈ l,
        r.professor_name = p.professor_name → r.rating ≤ p.rating := by
  intro l
  induction l with
  | nil => intro seen _ p hp; simp [dropDupByNameAux] at hp
  | cons x rest ih =>
    intro seen hs p hp r hr hname
    rw [List.pairwise_cons] at hs
    rw [dropDupByNameAux] at hp
    by_cases hseen : x.professor_name ∈ seen
    · rw [if_pos hseen] at hp
      rcases List.mem_cons.mp hr with rfl | hr
      · exact absurd (hname ▸ hseen) (dropDupByNameAux_not_seen rest seen p hp)
      · exact ih seen hs.2 p hp r hr hname
    · rw [if_neg hseen] at hp
      rcases List.mem_cons.mp hp with rfl | hp
      · rcases List.mem_cons.mp hr with rfl | hr
        · exact le_refl _
        · exact hs.1 r hr
      · rcases List.mem_cons.mp hr with rfl | hr
        · exact absurd (hname ▸ List.mem_cons_self _ seen)
            (dropDupByNameAux_not_seen rest _ p hp)
        · exact ih _ hs.2 p hp r hr hname

theorem dropDupByNameAux_covers :
    ∀ (l : List ProcRow) (seen : List String), ∀ r ∈ l,
      r.professor_name ∉ seen →
      ∃ p ∈ dropDupByNameAux seen l, p.professor_name = r.professor_name := by
  intro l
  induction l with
  | nil => intro seen r hr; simp at hr
  | cons x rest ih =>
    intro seen r hr hns
    rw [dropDupByNameAux]
    by_cases hseen : x.professor_name ∈ seen
    · rw [if_pos hseen]
      rcases List.mem_cons.mp hr with rfl | hr
      · exact absurd hseen hns
      · exact ih seen r hr hns
    · rw [if_neg hseen]
      by_cases hx : r.professor_name = x.professor_name
      · exact ⟨x, List.mem_cons_self _ _, hx.symm⟩
      · rcases List.mem_cons.mp hr with rfl | hr
        · exact absurd rfl hx
        · obtain ⟨p, hp, hpn⟩ := ih (x.professor_name :: seen) r hr
            (by simp [hx, hns])
          exact ⟨p, List.mem_cons_of_mem x hp, hpn⟩

end Culpa

namespace Culpa

theorem clampRatings_range (rows : List NumRow) :
    ∀ nr ∈ clampRatings rows, 0 ≤ nr.rating ∧ nr.rating ≤ 5 := by
  intro nr hnr
  rw [clampRatings] at hnr
  by_cases hinv : (rows.filter (fun r => r.rating < 0 || 5 < r.rating)).isEmpty
  · rw [if_pos hinv] at hnr
    have h0 := List.isEmpty_iff.mp hinv
    have h2 := List.filter_eq_nil_iff.mp h0 nr hnr
    simp only [Bool.or_eq_true, decide_eq_true_eq, not_or, not_lt] at h2
    exact ⟨h2.1, h2.2⟩
  · rw [if_neg hinv] at hnr
    obtain ⟨x, _, rfl⟩ := List.mem_map.mp hnr
    refine ⟨le_max_left 0 _, max_le (by norm_num) (min_le_right _ 5)⟩

theorem survivors_rating_range (df : CulpaFrame) :
    ∀ r ∈ survivors df, 0 ≤ r.rating ∧ r.rating ≤ 5 := by
  intro r hr
  obtain ⟨nr, hnr, rfl⟩ := List.mem_map.mp hr
  exact clampRatings_range _ nr hnr

/-- The concrete frame of the claim's clamp example: a rating of 5.7
(the rational 57/10) and a rating of -1. -/
def exFrame : CulpaFrame :=
  ⟨true, true,
   [⟨some "A", some (some ⟨57, 10, by decide, by decide⟩)⟩,
    ⟨some "B", some (some (-1))⟩]⟩

end Culpa

/-- C6: for any input table having the professor_name and rating columns,
`process_culpa_ratings` succeeds; its output has pairwise-distinct
professor names; each output row is one of the cleaned (clamped) rows and
carries the maximum cleaned rating among its professor's rows, and every
cleaned professor appears; all cleaned ratings lie in [0,5]; concretely, a
raw 5.7 is clamped to 5.0 and a raw -1 to 0.0. -/
theorem process_culpa_clamp_dedup (df : Culpa.CulpaFrame)
    (h₁ : df.hasProfessorName = true) (h₂ : df.hasRating = true) :
    (Culpa.process_culpa_ratings df =
      .ok (Culpa.dedupeByMaxRating (Culpa.survivors df))) ∧
    ((Culpa.dedupeByMaxRating (Culpa.survivors df)).map
      (fun r => r.professor_name)).Nodup ∧
    (∀ p ∈ Culpa.dedupeByMaxRating (Culpa.survivors df),
      ∃ r ∈ Culpa.survivors df,
        r.professor_name = p.professor_name ∧ r.rating = p.rating) ∧
    (∀ p ∈ Culpa.dedupeByMaxRating (Culpa.survivors df),
      ∀ r ∈ Culpa.survivors df,
        r.professor_name = p.professor_name → r.rating ≤ p.rating) ∧
    (∀ r ∈ Culpa.survivors df,
      ∃ p ∈ Culpa.dedupeByMaxRating (Culpa.survivors df),
        p.professor_name = r.professor_name) ∧
    (∀ r ∈ Culpa.survivors df, 0 ≤ r.rating ∧ r.rating ≤ 5) ∧
    Culpa.process_culpa_ratings Culpa.exFrame =
      .ok [⟨"A", 5, "", "", "Spring 2025"⟩, ⟨"B", 0, "", "", "Spring 2025"⟩] := by
  have hproc : Culpa.process_culpa_ratings df =
      .ok (Culpa.dedupeByMaxRating (Culpa.survivors df)) := by
    simp [Culpa.process_culpa_ratings, h₁, h₂]
  have hconc : Culpa.process_culpa_ratings Culpa.exFrame =
      .ok [⟨"A", 5, "", "", "Spring 2025"⟩, ⟨"B", 0, "", "", "Spring 2025"⟩] := by
    rw [Culpa.process_culpa_ratings, if_neg (by decide), if_neg (by decide)]
    exact congrArg Except.ok (by decide)
  refine ⟨hproc, ?_, ?_, ?_, ?_, Culpa.survivors_rating_range df, hconc⟩
  all_goals
    rw [Culpa.dedupeByMaxRating]
    by_cases hdup : ((Culpa.survivors df).map
        (fun r => r.professor_name)).dedup.length < (Culpa.survivors df).length
  · -- duplicates exist: output names are nodup by construction
    rw [if_pos hdup]
    exact Culpa.dropDupByNameAux_nodup _ []
  · rw [if_neg hdup]
    have hlen : ((Culpa.survivors df).map (fun r => r.professor_name)).dedup.length =
        ((Culpa.survivors df).map (fun r => r.professor_name)).length := by
      have hle := (List.dedup_sublist
        ((Culpa.survivors df).map (fun r => r.professor_name))).length_le
      simp only [List.length_map] at *
      omega
    have heq := (List.dedup_sublist _).eq_of_length hlen
    exact List.dedup_eq_self.mp heq
  · -- each output row comes from the cleaned table
    rw [if_pos hdup]
    intro p hp
    have hmem := Culpa.dropDupByNameAux_mem _ [] p hp
    have hmem' := (PySort.sortDescBy_perm (fun r => r.rating)
      (Culpa.survivors df)).mem_iff.mp hmem
    exact ⟨p, hmem', rfl, rfl⟩
  · rw [if_neg hdup]
    intro p hp
    exact ⟨p, hp, rfl, rfl⟩
  · -- maximality
    rw [if_pos hdup]
    intro p hp r hr hname
    have hr' := (PySort.sortDescBy_perm (fun x => x.rating)
      (Culpa.survivors df)).symm.mem_iff.mp hr
    exact Culpa.dropDupByNameAux_max _ []
      (PySort.sortDescBy_sorted (fun x => x.rating) (Culpa.survivors df))
      p hp r hr' hname
  · rw [if_neg hdup]
    intro p hp r hr hname
    have hlen : ((Culpa.survivors df).map (fun x => x.professor_name)).dedup.length =
        ((Culpa.survivors df).map (fun x => x.professor_name)).length := by
      have hle := (List.dedup_sublist
        ((Culpa.survivors df).map (fun x => x.professor_name))).length_le
      simp only [List.length_map] at *
      omega
    have hnodup := List.dedup_eq_self.mp ((List.dedup_sublist _).eq_of_length hlen)
    have := List.inj_on_of_nodup_map hnodup hr hp hname
    rw [this]
  · -- coverage
    rw [if_pos hdup]
    intro r hr
    have hr' := (PySort.sortDescBy_perm (fun x => x.rating)
      (Culpa.survivors df)).symm.mem_iff.mp hr
    obtain ⟨p, hp, hpn⟩ := Culpa.dropDupByNameAux_covers _ [] r hr' (by simp)
    exact ⟨p, hp, hpn⟩
  · rw [if_neg hdup]
    intro r hr
    exact ⟨r, hr, rfl⟩

/-- Witness for `process_culpa_clamp_dedup`: the theorem applied to the
concrete two-row frame with ratings 5.7 and -1. -/
theorem process_culpa_clamp_dedup_witness :
    Culpa.process_culpa_ratings Culpa.exFrame =
      .ok (Culpa.dedupeByMaxRating (Culpa.survivors Culpa.exFrame)) ∧
    Culpa.process_culpa_ratings Culpa.exFrame =
      .ok [⟨"A", 5, "", "", "Spring 2025"⟩, ⟨"B", 0, "", "", "Spring 2025"⟩] :=
  ⟨(process_culpa_clamp_dedup Culpa.exFrame rfl rfl).1,
   (process_culpa_clamp_dedup Culpa.exFrame rfl rfl).2.2.2.2.2.2⟩

namespace Ratings

/-- One inner row of `difflib.SequenceMatcher.find_longest_match`'s dynamic
programme: fold over the (ascending) positions `js` of `b` that equal
`a[i]` inside `[blo, bhi)`, building the new run-length map and updating
the best block.  `j2len` is the previous row (`j2len.get(j-1, 0)`; a dict
holds no entry at `-1`, hence the `j = 0` guard); `best` is
`(besti, bestj, bestsize)`. -/
def flmInner (j2len : Nat → Nat) (i : Nat) :
    List Nat → (Nat → Nat) → Nat × Nat × Nat → (Nat → Nat) × (Nat × Nat × Nat)
  | [], newj2len, best => (newj2len, best)
  | j :: rest, newj2len, best =>
    let k := (if j = 0 then 0 else j2len (j - 1)) + 1
    let newj2len' := fun x => if x = j then k else newj2len x
    let best' := if best.2.2 < k then (i + 1 - k, j + 1 - k, k) else best
    flmInner j2len i rest newj2len' best'

/-- The positions of `b` (ascending) holding character `c` within
`[blo, bhi)` — `b2j[a[i]]` restricted by the `continue`/`break` guards. -/
def bPositions (b : List Char) (blo bhi : Nat) (c : Char) : List Nat :=
  (List.range b.length).filter (fun j => blo ≤ j && j < bhi && b.get? j = some c)

/-- The outer row loop of `find_longest_match` over `i ∈ [alo, ahi)`. -/
def flmOuter (a b : List Char) (blo bhi : Nat) :
    List Nat → (Nat → Nat) → Nat × Nat × Nat → Nat × Nat × Nat
  | [], _, best => best
  | i :: rest, j2len, best =>
    let c := a.getD i ' '
    let (newj2len, best') := flmInner j2len i (bPositions b blo bhi c) (fun _ => 0) best
    flmOuter a b blo bhi rest newj2len best'

/-- `SequenceMatcher.find_longest_match(alo, ahi, blo, bhi)` for junk-free
inputs (the strings here are far below the 200-character autojunk
threshold, so `b2j` is unpruned and the post-loop junk-extension `while`
loops cannot extend the block the dynamic programme found). -/
def find_longest_match (a b : List Char) (alo ahi blo bhi : Nat) :
    Nat × Nat × Nat :=
  flmOuter a b blo bhi (List.range' alo (ahi - alo)) (fun _ => 0) (alo, blo, 0)

/-- Total size of all matching blocks (`sum(triple[-1] for triple in
get_matching_blocks())`, by the same divide-and-conquer recursion; the
fuel bounds the recursion depth, `|a| + |b| + 1` always suffices since
every recursive call strictly shrinks a nonempty interval). -/
def matchingBlocksTotal (a b : List Char) : Nat → Nat → Nat → Nat → Nat → Nat
  | 0, _, _, _, _ => 0
  | fuel + 1, alo, ahi, blo, bhi =>
    let r := find_longest_match a b alo ahi blo bhi
    if r.2.2 = 0 then 0
    else matchingBlocksTotal a b fuel alo r.1 blo r.2.1 + r.2.2 +
      matchingBlocksTotal a b fuel (r.1 + r.2.2) ahi (r.2.1 + r.2.2) bhi

/-- `SequenceMatcher.ratio()`: `2.0 * M / T` where `M` is the total
matching-block size and `T` the combined length (`1.0` when both empty). -/
def sequenceMatcherRatio (a b : List Char) : ℚ :=
  let m := matchingBlocksTotal a b (a.length + b.length + 1) 0 a.length 0 b.length
  if a.length + b.length = 0 then 1
  else (2 * m : ℚ) / ((a.length : ℚ) + (b.length : ℚ))

/-- `string_similarity(a, b)`: the ratio of the lowercased strings. -/
def string_similarity (a b : String) : ℚ :=
  sequenceMatcherRatio (a.toList.map Char.toLower) (b.toList.map Char.toLower)

/-- The `professor_header` record of a CULPA search result. -/
structure ProfHeader where
  first_name : String
  last_name : String
  professor_id : Nat
deriving DecidableEq, Repr

/-- One CULPA search result: a professor record (with its relevance) or a
non-professor entry (filtered out by `PROF in r.keys()`). -/
inductive SearchResult where
  | prof (header : ProfHeader) (relevance : ℚ)
  | other
deriving DecidableEq, Repr

/-- A professor result after filtering: `(header, relevance)`. -/
abbrev Candidate := ProfHeader × ℚ

/-- `[r for r in results if PROF in r.keys()]`. -/
def profOnly (rs : List SearchResult) : List Candidate :=
  rs.filterMap (fun r => match r with
    | .prof h rel => some (h, rel)
    | .other => none)

/-- Python `name.split(" ")`: split on each single space, keeping empty
pieces. -/
def pySplitSpaceAux : List Char → List Char → List String
  | [], acc => [String.mk acc.reverse]
  | c :: rest, acc =>
    if c = ' ' then String.mk acc.reverse :: pySplitSpaceAux rest []
    else pySplitSpaceAux rest (c :: acc)

def pySplitSpace (s : String) : List String := pySplitSpaceAux s.toList []

/-- `name_matches(name, results, threshold=0.9)`: compares the query's
first+last tokens against the first result's first+last name.  (Python
indexes `results[0]` and would raise on an empty list; the function is
only ever called with a nonempty one, and the model returns `false`
there.) -/
def name_matches (name : String) (results : List Candidate)
    (threshold : ℚ := 9/10) : Bool :=
  match results with
  | [] => false
  | r :: _ =>
    let toks := pySplitSpace name
    let searchName := toks.headD "" ++ " " ++ toks.getLastD ""
    let resultName := r.1.first_name ++ " " ++ r.1.last_name
    threshold ≤ string_similarity searchName resultName

/-- The clustering loop of `get_professor_ids`: `past_match` is set (only)
on the first iteration, which also appends the first candidate's id; the
second `if` — not an `elif` — then re-tests the same candidate (and every
later one) for a name match and a relevance within 5% of the anchor's.
(`past[REL] / r[REL]` is rational division; the loop is only evaluated on
nonzero relevances, where it agrees with Python.) -/
def clusterLoop (name : String) :
    List Candidate → Option Candidate → List Nat → List Nat
  | [], _, ids => ids
  | r :: rest, past, ids =>
    let step1 := if ids.isEmpty then (some r, ids ++ [r.1.professor_id])
      else (past, ids)
    let ids' :=
      if step1.1.isSome ∧ ¬ step1.2.isEmpty ∧ name_matches name [r] ∧
          |(step1.1.getD r).2 / r.2 - 1| < 1/20 then
        step1.2 ++ [r.1.professor_id]
      else step1.2
    clusterLoop name rest step1.1 ids'

/-- `get_professor_ids(name)` after the HTTP boundary (`results0` is the
decoded search payload): filter to professor records; no results → absent;
top name mismatch → absent; single result → its id; a candidate with more
than 50% of the summed relevance → it alone; top relevance above 1.25× the
second → top alone; otherwise cluster, returning the ids when more than
one was collected and reporting an unparsed-match failure (absent)
otherwise. -/
def get_professor_ids (name : String) (results0 : List SearchResult) :
    Option (List Nat) :=
  let results := profOnly results0
  match results with
  | [] => none
  | r0 :: rest =>
    if ¬ name_matches name results then none
    else if rest.isEmpty then some [r0.1.professor_id]
    else
      let total := (results.map (fun r => r.2)).sum
      match results.find? (fun r => (1:ℚ)/2 < r.2 / total) with
      | some r => some [r.1.professor_id]
      | none =>
        if (5:ℚ)/4 * (rest.headD r0).2 < r0.2 then some [r0.1.professor_id]
        else
          let ids := clusterLoop name results none []
          if 1 < ids.length then some ids else none

/-- The failing search payload: three professor candidates of equal
relevance; the first matches the query name "John Smith", the other two
("Xq Vz") do not. -/
def exResults : List SearchResult :=
  [.prof ⟨"John", "Smith", 1⟩ 1,
   .prof ⟨"Xq", "Vz", 2⟩ 1,
   .prof ⟨"Xq", "Vz", 3⟩ 1]

end Ratings

namespace Ratings

theorem string_similarity_self : string_similarity "John Smith" "John Smith" = 1 := by
  simp only [string_similarity, sequenceMatcherRatio]
  rw [if_neg (by decide)]
  rw [show matchingBlocksTotal ("John Smith".toList.map Char.toLower)
      ("John Smith".toList.map Char.toLower)
      (("John Smith".toList.map Char.toLower).length +
        ("John Smith".toList.map Char.toLower).length + 1)
      0 ("John Smith".toList.map Char.toLower).length
      0 ("John Smith".toList.map Char.toLower).length = 10 from by decide]
  rw [show (("John Smith".toList.map Char.toLower).length) = 10 from by decide]
  norm_num

theorem string_similarity_mismatch : string_similarity "John Smith" "Xq Vz" = 2/15 := by
  simp only [string_similarity, sequenceMatcherRatio]
  rw [if_neg (by decide)]
  rw [show matchingBlocksTotal ("John Smith".toList.map Char.toLower)
      ("Xq Vz".toList.map Char.toLower)
      (("John Smith".toList.map Char.toLower).length +
        ("Xq Vz".toList.map Char.toLower).length + 1)
      0 ("John Smith".toList.map Char.toLower).length
      0 ("Xq Vz".toList.map Char.toLower).length = 1 from by decide]
  rw [show (("John Smith".toList.map Char.toLower).length) = 10 from by decide,
      show (("Xq Vz".toList.map Char.toLower).length) = 5 from by decide]
  norm_num

theorem name_matches_cons (name : String) (r : Candidate) (t : List Candidate) :
    name_matches name (r :: t) = name_matches name [r] := rfl

theorem name_matches_self :
    name_matches "John Smith" [(⟨"John", "Smith", 1⟩, (1:ℚ))] = true := by
  simp only [name_matches]
  rw [show (pySplitSpace "John Smith").headD "" ++ " " ++
        (pySplitSpace "John Smith").getLastD "" = "John Smith" from by decide,
      show ("John" : String) ++ " " ++ "Smith" = "John Smith" from by decide]
  rw [string_similarity_self]
  norm_num

theorem name_matches_mismatch (pid : Nat) (rel : ℚ) :
    name_matches "John Smith" [(⟨"Xq", "Vz", pid⟩, rel)] = false := by
  simp only [name_matches]
  rw [show (pySplitSpace "John Smith").headD "" ++ " " ++
        (pySplitSpace "John Smith").getLastD "" = "John Smith" from by decide,
      show ("Xq" : String) ++ " " ++ "Vz" = "Xq Vz" from by decide]
  rw [string_similarity_mismatch]
  norm_num

end Ratings

/-- C8: with three equal-relevance candidates where only the first matches
the query name — so neither the 50%-of-summed-relevance rule nor the
1.25-times-the-second rule fires and the cluster of matching subsequent
candidates is empty — `get_professor_ids` returns the anchor's id twice
(`some [1, 1]`) instead of the unparsed-match failure (absent) the claim
describes: the clustering loop's second `if` is not an `elif` and re-tests
the anchor itself (a name match with relevance ratio exactly 1), so the
first iteration appends the anchor's id twice, `len(professor_ids) > 1`
always holds, and the failure branch is unreachable. -/
theorem get_professor_ids_duplicate_anchor :
    Ratings.get_professor_ids "John Smith" Ratings.exResults = some [1, 1] := by
  have hprof : Ratings.profOnly Ratings.exResults =
      [(⟨"John", "Smith", 1⟩, (1:ℚ)), (⟨"Xq", "Vz", 2⟩, 1), (⟨"Xq", "Vz", 3⟩, 1)] := by
    decide
  norm_num [Ratings.get_professor_ids, hprof, Ratings.name_matches_cons,
    Ratings.name_matches_self, Ratings.name_matches_mismatch,
    List.find?, Ratings.clusterLoop, List.sum_cons, List.sum_nil]
  rw [Ratings.name_matches_self]
  simp only [Ratings.name_matches_mismatch]
  norm_num
  decide

namespace Api

/-- A decoded JSON value (`json.loads` output).  Strings are kept as
character lists; object fields in textual order (lookups take the last
binding, as a Python dict built left to right does). -/
inductive Json where
  | null
  | bool (b : Bool)
  | num (q : ℚ)
  | str (s : List Char)
  | arr (items : List Json)
  | obj (fields : List (List Char × Json))
deriving Repr

/-- JSON inter-token whitespace. -/
def skipWs (cs : List Char) : List Char :=
  cs.dropWhile (fun c => c = ' ' || c = '\t' || c = '\n' || c = '\r')

/-- A JSON string escape (the `\\uXXXX` form is not needed by any input
here and is treated as a parse failure). -/
def escChar (e : Char) : Option Char :=
  if e = 'n' then some '\n'
  else if e = 't' then some '\t'
  else if e = 'r' then some '\r'
  else if e = 'b' then some '\x08'
  else if e = 'f' then some '\x0c'
  else if e = '"' || e = '\\' || e = '/' then some e
  else none

/-- Parse a JSON string body after the opening quote, up to the closing
quote. -/
def parseStringBody : List Char → Option (List Char × List Char)
  | [] => none
  | '"' :: rest => some ([], rest)
  | '\\' :: e :: rest => do
      let c ← escChar e
      let (s, r) ← parseStringBody rest
      pure (c :: s, r)
  | c :: rest => (parseStringBody rest).map (fun p => (c :: p.1, p.2))

def isJsonDigit (c : Char) : Bool := '0' ≤ c && c ≤ '9'

/-- Parse one or more digits into a natural number. -/
def parseDigits (cs : List Char) : Option (Nat × List Char) :=
  let ds := cs.takeWhile isJsonDigit
  if ds.isEmpty then none
  else some (ds.foldl (fun acc c => 10 * acc + (c.toNat - 48)) 0,
    cs.dropWhile isJsonDigit)

/-- Parse a JSON number (optional minus, integer part, optional fraction;
exponents do not occur in the inputs considered and fail).  Integer inputs
take the cast-only path, so no rational normalization is involved. -/
def parseNumber (cs : List Char) : Option (ℚ × List Char) :=
  let (neg, cs₁) := match cs with
    | '-' :: rest => (true, rest)
    | _ => (false, cs)
  match parseDigits cs₁ with
  | none => none
  | some (n, cs₂) =>
    let signed : Int := if neg then -(n : Int) else (n : Int)
    match cs₂ with
    | '.' :: cs₃ =>
      match parseDigits cs₃ with
      | none => none
      | some (f, cs₄) =>
        let k := (cs₃.takeWhile isJsonDigit).length
        let frac : ℚ := Rat.divInt (f : Int) ((10 ^ k : Nat) : Int)
        some ((if neg then (signed : ℚ) - frac else (signed : ℚ) + frac), cs₄)
    | _ => some ((signed : ℚ), cs₂)

mutual

/-- Parse one JSON value (fuel-driven). -/
def parseVal : Nat → List Char → Option (Json × List Char)
  | 0, _ => none
  | fuel + 1, cs =>
    match skipWs cs with
    | [] => none
    | '{' :: rest => (parseObjFields fuel rest).map (fun p => (Json.obj p.1, p.2))
    | '[' :: rest => (parseArrItems fuel rest).map (fun p => (Json.arr p.1, p.2))
    | '"' :: rest => (parseStringBody rest).map (fun p => (Json.str p.1, p.2))
    | 't' :: rest =>
      if rest.take 3 = ['r', 'u', 'e'] then some (Json.bool true, rest.drop 3)
      else none
    | 'f' :: rest =>
      if rest.take 4 = ['a', 'l', 's', 'e'] then some (Json.bool false, rest.drop 4)
      else none
    | 'n' :: rest =>
      if rest.take 3 = ['u', 'l', 'l'] then some (Json.null, rest.drop 3)
      else none
    | cs' => (parseNumber cs').map (fun p => (Json.num p.1, p.2))

/-- Parse array items after `[`, through the closing `]`. -/
def parseArrItems : Nat → List Char → Option (List Json × List Char)
  | 0, _ => none
  | fuel + 1, cs =>
    match skipWs cs with
    | ']' :: rest => some ([], rest)
    | cs' => do
      let (v, r₁) ← parseVal fuel cs'
      match skipWs r₁ with
      | ',' :: r₂ => do
        let (vs, r₃) ← parseArrItemsTail fuel r₂
        pure (v :: vs, r₃)
      | ']' :: r₂ => pure ([v], r₂)
      | _ => none

/-- Items after a comma (at least one more value required). -/
def parseArrItemsTail : Nat → List Char → Option (List Json × List Char)
  | 0, _ => none
  | fuel + 1, cs => do
    let (v, r₁) ← parseVal fuel cs
    match skipWs r₁ with
    | ',' :: r₂ => do
      let (vs, r₃) ← parseArrItemsTail fuel r₂
      pure (v :: vs, r₃)
    | ']' :: r₂ => pure ([v], r₂)
    | _ => none

/-- Parse object fields after `{`, through the closing `}`. -/
def parseObjFields : Nat → List Char → Option (List (List Char × Json) × List Char)
  | 0, _ => none
  | fuel + 1, cs =>
    match skipWs cs with
    | '}' :: rest => some ([], rest)
    | '"' :: rest => do
      let (key, r₁) ← parseStringBody rest
      match skipWs r₁ with
      | ':' :: r₂ => do
        let (v, r₃) ← parseVal fuel r₂
        match skipWs r₃ with
        | ',' :: r₄ => do
          let (fs, r₅) ← parseObjFieldsTail fuel r₄
          pure ((key, v) :: fs, r₅)
        | '}' :: r₄ => pure ([(key, v)], r₄)
        | _ => none
      | _ => none
    | _ => none

/-- Fields after a comma (at least one more field required). -/
def parseObjFieldsTail : Nat → List Char → Option (List (List Char × Json) × List Char)
  | 0, _ => none
  | fuel + 1, cs =>
    match skipWs cs with
    | '"' :: rest => do
      let (key, r₁) ← parseStringBody rest
      match skipWs r₁ with
      | ':' :: r₂ => do
        let (v, r₃) ← parseVal fuel r₂
        match skipWs r₃ with
        | ',' :: r₄ => do
          let (fs, r₅) ← parseObjFieldsTail fuel r₄
          pure ((key, v) :: fs, r₅)
        | '}' :: r₄ => pure ([(key, v)], r₄)
        | _ => none
      | _ => none
    | _ => none

end

/-- `json.loads`: parse one value and reject trailing non-whitespace
(the fuel bounds the number of parser steps; at least every second step
consumes a character, so `2·length + 4` always suffices). -/
def jsonParse (cs : List Char) : Option Json :=
  match parseVal (2 * cs.length + 4) cs with
  | some (v, rest) => if (skipWs rest).isEmpty then some v else none
  | none => none

/-- Field lookup on a decoded object: a Python dict built left to right
keeps the last binding of a duplicated key, hence the reversed search. -/
def getField (fields : List (List Char × Json)) (key : List Char) : Option Json :=
  fields.reverse.lookup key

/-- The pydantic `Course` model (models.py): required course_code and
category, credits defaulting to 3, optional course_name / prof / rating. -/
structure Course where
  course_code : String
  course_name : Option String
  credits : Int
  prof : Option String
  rating : Option ℚ
  category : String
deriving Repr

/-- The pydantic `Semester` model; `parse_planning_response` always sets
`total_credits` to the recomputed sum, so it is total here. -/
structure Semester where
  name : String
  courses : List Course
  total_credits : Int
deriving Repr

/-- A required string field. -/
def jStr : Option Json → Option String
  | some (Json.str s) => some (String.mk s)
  | _ => none

/-- An optional string field (absent or null → `None`). -/
def jStrOpt : Option Json → Option (Option String)
  | none => some none
  | some Json.null => some none
  | some (Json.str s) => some (some (String.mk s))
  | _ => none

/-- An optional float field (absent or null → `None`). -/
def jNumOpt : Option Json → Option (Option ℚ)
  | none => some none
  | some Json.null => some none
  | some (Json.num q) => some (some q)
  | _ => none

/-- `Course(**course_data)`: pydantic validation (extra keys are ignored;
an integral JSON number validates the int field `credits`, which defaults
to 3 when absent; a non-dict argument raises). -/
def buildCourse : Json → Option Course
  | Json.obj fs => do
    let cc ← jStr (getField fs "course_code".toList)
    let cat ← jStr (getField fs "category".toList)
    let credits ← match getField fs "credits".toList with
      | none => some (3 : Int)
      | some (Json.num q) => if q.den = 1 then some q.num else none
      | some _ => none
    let cname ← jStrOpt (getField fs "course_name".toList)
    let prof ← jStrOpt (getField fs "prof".toList)
    let rating ← jNumOpt (getField fs "rating".toList)
    pure ⟨cc, cname, credits, prof, rating, cat⟩
  | _ => none

/-- The Python list comprehension with exception propagation: every
element must build, else the whole construction raises. -/
def buildAll {α β : Type} (f : α → Option β) : List α → Option (List β)
  | [] => some []
  | x :: xs => do
    let y ← f x
    let ys ← buildAll f xs
    pure (y :: ys)

/-- One semester record: `sem_data.get('courses', [])` (a non-list value
makes the comprehension raise), the required `sem_data['name']`, and
`total_credits = sum(c.credits for c in courses)` — recomputed, never read
from the payload. -/
def buildSemester : Json → Option Semester
  | Json.obj fs => do
    let coursesJson ← match getField fs "courses".toList with
      | none => some ([] : List Json)
      | some (Json.arr xs) => some xs
      | some _ => none
    let courses ← buildAll buildCourse coursesJson
    let name ← jStr (getField fs "name".toList)
    pure ⟨name, courses, (courses.map (fun c => c.credits)).sum⟩
  | _ => none

/-- The decoded-plan walk of `parse_planning_response`:
`plan_data.get('semesters', [])` (non-list → raise), each semester built,
`notes = plan_data.get('notes', [])` taken verbatim. -/
def buildPlan : Json → Option (List Semester × Json)
  | Json.obj fs => do
    let semsJson ← match getField fs "semesters".toList with
      | none => some ([] : List Json)
      | some (Json.arr xs) => some xs
      | some _ => none
    let sems ← buildAll buildSemester semsJson
    pure (sems, (getField fs "notes".toList).getD (Json.arr []))
  | _ => none

/-- The quoted literal `"semesters"` the regex requires (11 characters). -/
def quotedSemesters : List Char := '"' :: "semesters".toList ++ ['"']

def hasSubstrAt (cs pat : List Char) (j : Nat) : Bool :=
  (cs.drop j).take pat.length = pat

/-- Does `re.search(r'\{[\s\S]*"semesters"[\s\S]*\}', text)` admit a match
from position `i` to position `k` (both inclusive)?  `{` at `i`, `}` at
`k`, and a full `"semesters"` occurrence strictly between them. -/
def okSpan (cs : List Char) (i k : Nat) : Bool :=
  cs.get? i = some '{' && cs.get? k = some '}' &&
  (List.range cs.length).any (fun j =>
    i < j && j + quotedSemesters.length ≤ k && hasSubstrAt cs quotedSemesters j)

/-- The regex match: leftmost starting position (the first `{` with a
later `"semesters"` and a `}` after it), and — the two `[\s\S]*` being
greedy — the largest ending position for that start (the last `}`
admissible).  Returns the inclusive span `(start, end)`. -/
def extractJsonSpan (cs : List Char) : Option (Nat × Nat) :=
  match (List.range cs.length).find? (fun i =>
      (List.range cs.length).any (fun k => okSpan cs i k)) with
  | none => none
  | some i =>
    ((List.range cs.length).reverse.find? (fun k => okSpan cs i k)).map
      (fun k => (i, k))

/-- The result triple `(semesters, notes, explanation)` of
`parse_planning_response`. -/
structure PlanParse where
  semesters : List Semester
  notes : Json
  explanation : String
deriving Repr

/-- The fallback note `"Unable to generate structured plan. See
explanation."` as the one-element notes list. -/
def fallbackNotes : Json :=
  Json.arr [Json.str "Unable to generate structured plan. See explanation.".toList]

/-- `parse_planning_response(plan_text)`: locate the JSON span (no span,
or a `json.JSONDecodeError`, degrades to the fallback triple with the raw
text as explanation); on a decode success build the semesters (recomputing
each total) and take notes verbatim and the stripped text before the span
as explanation.  `none` models an uncaught exception (pydantic validation
or a missing `name` key). -/
def parse_planning_response (planText : String) : Option PlanParse :=
  let cs := planText.toList
  match extractJsonSpan cs with
  | none => some ⟨[], fallbackNotes, planText⟩
  | some (i, k) =>
    let span := (cs.drop i).take (k + 1 - i)
    match jsonParse span with
    | none => some ⟨[], fallbackNotes, planText⟩
    | some v =>
      (buildPlan v).map (fun p => ⟨p.1, p.2, Culpa.pyStrip (String.mk (cs.take i))⟩)

end Api

namespace Api

theorem buildAll_mem {α β : Type} (f : α → Option β) :
    ∀ (xs : List α) (ys : List β), buildAll f xs = some ys →
      ∀ y ∈ ys, ∃ x ∈ xs, f x = some y := by
  intro xs
  induction xs with
  | nil =>
    intro ys h y hy
    simp only [buildAll, Option.some.injEq] at h
    subst h; simp at hy
  | cons x rest ih =>
    intro ys h y hy
    simp only [buildAll] at h
    cases hfx : f x with
    | none => rw [hfx] at h; simp at h
    | some b =>
      rw [hfx] at h
      cases hrest : buildAll f rest with
      | none => rw [hrest] at h; simp at h
      | some bs =>
        rw [hrest] at h
        simp at h
        subst h
        rcases List.mem_cons.mp hy with rfl | hy
        · exact ⟨x, List.mem_cons_self _ _, hfx⟩
        · obtain ⟨x', hx', hfx'⟩ := ih bs hrest y hy
          exact ⟨x', List.mem_cons_of_mem x hx', hfx'⟩


theorem semTail (fs : List (List Char × Json)) (L : List Json) (s : Semester)
    (h : (do
        let courses ← buildAll buildCourse L
        let name ← jStr (getField fs "name".toList)
        pure (⟨name, courses, (courses.map (fun c => c.credits)).sum⟩ : Semester)) =
      some s) :
    s.total_credits = (s.courses.map (fun c => c.credits)).sum := by
  cases hca : buildAll buildCourse L with
  | none => rw [hca] at h; simp at h
  | some courses =>
    rw [hca] at h
    cases hnm : jStr (getField fs "name".toList) with
    | none => rw [hnm] at h; simp at h
    | some nm =>
      rw [hnm] at h
      simp at h
      rw [← h]

theorem buildSemester_total (j : Json) (s : Semester)
    (h : buildSemester j = some s) :
    s.total_credits = (s.courses.map (fun c => c.credits)).sum := by
  cases j with
  | obj fs =>
    simp only [buildSemester] at h
    cases hcf : getField fs "courses".toList with
    | none =>
      rw [hcf] at h
      exact semTail fs [] s h
    | some cj =>
      rw [hcf] at h
      cases cj with
      | arr xs => exact semTail fs xs s h
      | null => simp at h
      | bool b => simp at h
      | num q => simp at h
      | str c => simp at h
      | obj f2 => simp at h
  | null => simp [buildSemester] at h
  | bool b => simp [buildSemester] at h
  | num q => simp [buildSemester] at h
  | str c => simp [buildSemester] at h
  | arr xs => simp [buildSemester] at h

theorem planTail (fs : List (List Char × Json)) (L : List Json)
    (p : List Semester × Json)
    (h : (do
        let sems ← buildAll buildSemester L
        pure (sems, (getField fs "notes".toList).getD (Json.arr []))) = some p) :
    ∀ sem ∈ p.1, ∃ j, buildSemester j = some sem := by
  cases hsa : buildAll buildSemester L with
  | none => rw [hsa] at h; simp at h
  | some sems =>
    rw [hsa] at h
    simp at h
    rw [← h]
    intro sem hsem
    obtain ⟨j, _, hj⟩ := buildAll_mem buildSemester L sems hsa sem hsem
    exact ⟨j, hj⟩

theorem buildPlan_sem (v : Json) (p : List Semester × Json)
    (h : buildPlan v = some p) :
    ∀ sem ∈ p.1, ∃ j, buildSemester j = some sem := by
  cases v with
  | obj fs =>
    simp only [buildPlan] at h
    cases hsf : getField fs "semesters".toList with
    | none =>
      rw [hsf] at h
      exact planTail fs [] p h
    | some sj =>
      rw [hsf] at h
      cases sj with
      | arr xs => exact planTail fs xs p h
      | null => simp at h
      | bool b => simp at h
      | num q => simp at h
      | str c => simp at h
      | obj f2 => simp at h
  | null => simp [buildPlan] at h
  | bool b => simp [buildPlan] at h
  | num q => simp [buildPlan] at h
  | str c => simp [buildPlan] at h
  | arr xs => simp [buildPlan] at h


/-- The planning-parse success input of the claim. -/
def planInput : String :=
  "Here is the plan.\n\x7b\"semesters\": [\x7b\"name\": \"Fall 2025\", \"courses\": [\x7b\"course_code\": \"COMS 4111\", \"category\": \"core\", \"credits\": 3\x7d]\x7d], \"notes\": [\"note1\"]\x7d"

end Api

set_option maxRecDepth 1000000 in
/-- C2: on the success input, `parse_planning_response` returns the
trimmed pre-JSON text "Here is the plan." as explanation, exactly one
semester "Fall 2025" containing the single 3-credit course with
total_credits recomputed to 3, and notes ["note1"] verbatim; and for every
successfully parsed response, each returned semester's total_credits
equals the sum of its courses' credits, whatever the payload supplied. -/
theorem parse_planning_success :
    Api.parse_planning_response Api.planInput =
      some ⟨[⟨"Fall 2025", [⟨"COMS 4111", none, 3, none, none, "core"⟩], 3⟩],
        Api.Json.arr [Api.Json.str "note1".toList], "Here is the plan."⟩ ∧
    ∀ (text : String) (r : Api.PlanParse),
      Api.parse_planning_response text = some r →
      ∀ sem ∈ r.semesters,
        sem.total_credits = (sem.courses.map (fun c => c.credits)).sum := by
  constructor
  · rfl
  · intro text r h sem hsem
    rw [Api.parse_planning_response] at h
    cases hspan : Api.extractJsonSpan text.toList with
    | none =>
      rw [hspan] at h
      simp only [Option.some.injEq] at h
      subst h
      simp at hsem
    | some ik =>
      rw [hspan] at h
      obtain ⟨i, k⟩ := ik
      dsimp only at h
      cases hjson : Api.jsonParse ((text.toList.drop i).take (k + 1 - i)) with
      | none =>
        rw [hjson] at h
        simp only [Option.some.injEq] at h
        subst h
        simp at hsem
      | some v =>
        rw [hjson] at h
        simp only [Option.map_eq_some'] at h
        obtain ⟨p, hp, hr⟩ := h
        subst hr
        obtain ⟨j, hj⟩ := Api.buildPlan_sem v p hp sem hsem
        exact Api.buildSemester_total j sem hj

set_option maxRecDepth 1000000 in
/-- Witness for `parse_planning_success`: its universal part applied at
the concrete success input and its parsed result. -/
theorem parse_planning_success_witness :
    ∀ sem ∈ (Api.PlanParse.semesters
        ⟨[⟨"Fall 2025", [⟨"COMS 4111", none, 3, none, none, "core"⟩], 3⟩],
          Api.Json.arr [Api.Json.str "note1".toList], "Here is the plan."⟩),
      sem.total_credits = (sem.courses.map (fun c => c.credits)).sum :=
  parse_planning_success.2 Api.planInput _ parse_planning_success.1

set_option maxRecDepth 1000000 in
/-- C10: the extracted candidate JSON span runs from the first `{` to the
last `}` (the greedy match anchored on a "semesters" key): on
`{"semesters": []} tail }` — whose 17-character prefix is a well-formed
plan object — the span is the whole 24-character string (positions 0–23),
its JSON decoding fails on the trailing text, and the function returns
the fallback triple (no semesters, the single explanatory note, the full
raw text as explanation) instead of the parsed plan. -/
theorem parse_planning_trailing_brace_fallback :
    Api.extractJsonSpan "\x7b\"semesters\": []\x7d tail \x7d".toList = some (0, 23) ∧
    (Api.jsonParse "\x7b\"semesters\": []\x7d".toList).isSome = true ∧
    (Api.jsonParse "\x7b\"semesters\": []\x7d tail \x7d".toList).isNone = true ∧
    Api.parse_planning_response "\x7b\"semesters\": []\x7d tail \x7d" =
      some ⟨[], Api.fallbackNotes, "\x7b\"semesters\": []\x7d tail \x7d"⟩ := by
  refine ⟨by decide, by decide, by decide, rfl⟩
